import Mathlib

/-!
Verification development for the LIE aggregation and plotting pipeline
(`LIE_Aggregation_AND_Plotter.py`, `prestep2_lie_to_csv_and_etotal.py`,
`fancy_pdb_maker.py`).  Python strings are modelled as lists of characters
(`Str`), Python floats as exact rationals, and the filesystem effects as
explicit state.  Every definition is a direct transcription of the
corresponding Python function; recursion is structural (with an explicit
fuel argument where Python iterates by index) so that all definitions
evaluate on concrete inputs.
-/

/-- Python strings, modelled as lists of characters. -/
abbrev Str := List Char

/-- Python `str.lower()`; the pipeline's keywords are ASCII, where
`Char.toLower` agrees with Python. -/
def lowerStr (s : Str) : Str := s.map Char.toLower

/-- Python's substring test `needle in hay`. -/
def isSubstring (needle : Str) : Str → Bool
  | [] => needle.isEmpty
  | c :: rest => needle.isPrefixOf (c :: rest) || isSubstring needle rest

/-- The boolean clauses of one search configuration: keys `AND`,
`OR_GROUPS`, `NOT` of the dictionaries in `SEARCH_CONFIGS`
(`LIE_Aggregation_AND_Plotter.py`). -/
structure SearchConfig where
  AND : List Str
  OR_GROUPS : List (List Str)
  NOT : List Str

/-- `matches_boolean_query(filename, config)` from
`LIE_Aggregation_AND_Plotter.py` (lines 70-88): (AND) AND (one option from
EACH OR group) AND (NONE of NOT), all case-insensitive substring tests.
The Python `for`/`break` loop over the OR groups computes exactly
"every group has a match". -/
def matches_boolean_query (filename : Str) (config : SearchConfig) : Bool :=
  let name_lower := lowerStr filename
  let and_condition := config.AND.all fun k => isSubstring (lowerStr k) name_lower
  let or_groups_condition :=
    config.OR_GROUPS.all fun group => group.any fun k => isSubstring (lowerStr k) name_lower
  let not_condition := ! config.NOT.any fun k => isSubstring (lowerStr k) name_lower
  and_condition && or_groups_condition && not_condition

/-- Python `"sep".join(parts)`. -/
def pyJoin (sep : Str) : List Str → Str
  | [] => []
  | [p] => p
  | p :: q :: rest => p ++ sep ++ pyJoin sep (q :: rest)

/-- Decimal digit character (defined by cases so that facts about it are
decidable without `Char.ofNat` arithmetic). -/
def digitChar : Nat → Char
  | 0 => '0'
  | 1 => '1'
  | 2 => '2'
  | 3 => '3'
  | 4 => '4'
  | 5 => '5'
  | 6 => '6'
  | 7 => '7'
  | 8 => '8'
  | _ + 9 => '9'

/-- Fuel-driven decimal rendering of a natural number (the fuel makes the
recursion structural; `natToStr` supplies sufficient fuel). -/
def natToStrF : Nat → Nat → Str
  | 0, _ => []
  | f + 1, n => if n < 10 then [digitChar n] else natToStrF f (n / 10) ++ [digitChar (n % 10)]

/-- Python `str(n)` for a natural number, as used by f-strings. -/
def natToStr (n : Nat) : Str := natToStrF (n + 1) n

/-- The `or_names` loop of `get_descriptive_name`: the group with index `i`
contributes `"OR{i+1}-" + "_".join(group[:2])`, plus `"_etc"` when the group
has more than two items. -/
def orGroupNames (i : Nat) : List (List Str) → List Str
  | [] => []
  | group :: gs =>
    ("OR".data ++ natToStr (i + 1) ++ "-".data ++ pyJoin "_".data (group.take 2)
      ++ (if 2 < group.length then "_etc".data else [])) :: orGroupNames (i + 1) gs

/-- Python `\w` word character; the pipeline's labels are ASCII, where
word characters are alphanumerics and the underscore. -/
def isWordChar (c : Char) : Bool := c.isAlphanum || c == '_'

/-- `re.sub(r'[^\w\-]', '_', s)`: every character that is neither a word
character nor a hyphen is replaced by an underscore. -/
def sanitizeName (s : Str) : Str := s.map fun c => if isWordChar c || c == '-' then c else '_'

/-- `get_descriptive_name(config)` from `LIE_Aggregation_AND_Plotter.py`
(lines 42-67): "AND-..." part, "OR{i}-..." parts (groups truncated to two
items plus `_etc`), "NOT-..." part (truncated to three items, with a
separate `_etc` part beyond that), joined by `_` and sanitized. -/
def get_descriptive_name (config : SearchConfig) : Str :=
  let parts1 : List Str :=
    if config.AND.isEmpty then [] else ["AND-".data ++ pyJoin "_".data config.AND]
  let parts2 : List Str :=
    parts1 ++
      (if config.OR_GROUPS.isEmpty then []
       else [pyJoin "_".data (orGroupNames 0 config.OR_GROUPS)])
  let parts3 : List Str :=
    parts2 ++
      (if config.NOT.isEmpty then []
       else ["NOT-".data ++ pyJoin "_".data (config.NOT.take 3)] ++
         (if 3 < config.NOT.length then ["_etc".data] else []))
  let base_name := sanitizeName (pyJoin "_".data parts3)
  if base_name.isEmpty then "Empty_Query".data else base_name

/-- Case-insensitive substring containment, the specification-side reading
of "F contains term T (case-insensitively)". -/
def containsCI (filename term : Str) : Prop := lowerStr term <:+: lowerStr filename

/-- Whitespace predicate of Python `str.strip()` (ASCII range). -/
def wsp (c : Char) : Bool := c.isWhitespace

/-- Python `str.strip()`: drop whitespace from both ends. -/
def pyStrip (s : Str) : Str := ((s.dropWhile wsp).reverse.dropWhile wsp).reverse

/-- Fuel-driven Python `str.split(sep)` for a non-empty separator: cut at
each leftmost, non-overlapping occurrence of `sep`.  The fuel only makes
the recursion structural; `pySplit` supplies the string's length, which is
always sufficient. -/
def splitOnF (sep : Str) : Nat → Str → List Str
  | _, [] => [[]]
  | 0, s => [s]
  | f + 1, c :: rest =>
    if sep ≠ [] ∧ sep.isPrefixOf (c :: rest) then
      [] :: splitOnF sep f ((c :: rest).drop sep.length)
    else
      let r := splitOnF sep f rest
      (c :: r.headD []) :: r.tail

/-- Python `s.split(sep)`. -/
def pySplit (sep s : Str) : List Str := splitOnF sep s.length s

/-- Fuel-driven Python `str.replace(pat, repl)` for a non-empty pattern:
replace each leftmost, non-overlapping occurrence. -/
def replaceF (pat repl : Str) : Nat → Str → Str
  | _, [] => []
  | 0, s => s
  | f + 1, c :: rest =>
    if pat ≠ [] ∧ pat.isPrefixOf (c :: rest) then
      repl ++ replaceF pat repl f ((c :: rest).drop pat.length)
    else
      c :: replaceF pat repl f rest

/-- Python `s.replace(pat, repl)`. -/
def pyReplace (pat repl s : Str) : Str := replaceF pat repl s.length s

/-- Python `part.split('=', 1)` under the guard `'=' in part`: `none` when
there is no `'='`, otherwise the pieces before and after the first `'='`. -/
def splitFirstEq : Str → Option (Str × Str)
  | [] => none
  | c :: rest =>
    if c = '=' then some ([], rest)
    else (splitFirstEq rest).map fun p => (c :: p.1, p.2)

/-- Numeric value of a digit character. -/
def digitVal (c : Char) : Nat := c.toNat - '0'.toNat

/-- Value of a digit string, most significant digit first. -/
def digitsVal (s : Str) : Nat := s.foldl (fun a c => 10 * a + digitVal c) 0

/-- Python `float()` on the decimal shapes `digits`, `digits.digits`,
`.digits`, `digits.` that the pipeline writes (`float` also accepts
exponents and inf/nan, which the pipeline never produces; those are out of
the model and rejected here). -/
def pyFloatCore (t : Str) : Option ℚ :=
  if t.any fun c => c == '.' then
    let ip := t.takeWhile fun c => c != '.'
    let fp := (t.dropWhile fun c => c != '.').drop 1
    if fp.any fun c => c == '.' then none
    else if ip.isEmpty ∧ fp.isEmpty then none
    else if ip.all Char.isDigit ∧ fp.all Char.isDigit then
      some ((digitsVal ip : ℚ) + (digitsVal fp : ℚ) / (10 : ℚ) ^ fp.length)
    else none
  else if t ≠ [] ∧ t.all Char.isDigit then some ((digitsVal t : ℚ))
  else none

/-- Python `float(s)`: strip, then an optional sign, then the decimal
body. -/
def pyFloat (s : Str) : Option ℚ :=
  match pyStrip s with
  | [] => none
  | c :: u =>
    if c = '-' then (pyFloatCore u).map fun q => -q
    else if c = '+' then pyFloatCore u
    else pyFloatCore (c :: u)

/-- Round to the nearest integer, ties to even — the rounding IEEE doubles
and Python's fixed-point formatting apply. -/
def roundHalfEven (q : ℚ) : ℤ :=
  let n := ⌊q⌋
  let r := q - (n : ℚ)
  if r < 1 / 2 then n
  else if 1 / 2 < r then n + 1
  else if n % 2 = 0 then n else n + 1

/-- The rational value represented by the 4-decimal rendering of `q`. -/
def round4 (q : ℚ) : ℚ := (roundHalfEven (q * 10000) : ℚ) / 10000

/-- Fixed four-digit fractional block `dddd`. -/
def pad4 (f : Nat) : Str :=
  [digitChar (f / 1000 % 10), digitChar (f / 100 % 10), digitChar (f / 10 % 10),
    digitChar (f % 10)]

/-- Python `f"{v:.4f}"` on the model's exact rationals.  (A negative value
rounding to 0 is rendered without Python's `-0.0000` sign; the parsed-back
value is 0 either way, so the round-trip is unaffected.) -/
def format4 (q : ℚ) : Str :=
  let n := roundHalfEven (q * 10000)
  let a := n.natAbs
  (if n < 0 then "-".data else []) ++ natToStr (a / 10000) ++ ".".data ++ pad4 (a % 10000)

/-- One row of a Converted Table: the numeric columns `LIE_00001[EELEC]`,
`LIE_00001[EVDW]`, `[ETOTAL]` (the frame index plays no role in any
statistic).  Energies are exact rationals in the model. -/
structure EnergyRow where
  eelec : ℚ
  evdw : ℚ
  etotal : ℚ

/-- pandas `Series.mean()` over a modelled column. -/
def seriesMean (xs : List ℚ) : ℚ := xs.sum / xs.length

/-- The square of pandas `Series.std()` with its default `ddof=1`: the
sample variance with the n−1 divisor.  (The standard deviation itself is
its square root.) -/
def sampleVar (xs : List ℚ) : ℚ :=
  (xs.map fun x => (x - seriesMean xs) ^ 2).sum / ((xs.length : ℚ) - 1)

/-- Steps 2-3 of `analyze_and_combine_csvs`: keep the files whose name
matches the boolean query and concatenate their rows in order
(`pd.concat`).  The model's tables always carry the three required
columns, so the column check keeps every matching nonempty table, and
empty tables contribute no rows either way. -/
def combineMatching (files : List (Str × List EnergyRow)) (config : SearchConfig) :
    List EnergyRow :=
  ((files.filter fun f => matches_boolean_query f.1 config).map Prod.snd).flatten

/-- `label.replace(" Media", " Mean").replace(" Std", " Std")` from step 7
of `analyze_and_combine_csvs`. -/
def english_label (label : Str) : Str :=
  pyReplace " Std".data " Std".data (pyReplace " Media".data " Mean".data label)

/-- The `results` rows of step 4 of `analyze_and_combine_csvs`, for a given
list of columns with their computed mean and standard deviation (each
serialized with `f"{v:.4f}"`): `["{col} Media", mean]` then
`["{col} Std", std]` per column. -/
def make_results (cols : List (Str × ℚ × ℚ)) : List (Str × Str) :=
  (cols.map fun c =>
    [(c.1 ++ " Media".data, format4 c.2.1), (c.1 ++ " Std".data, format4 c.2.2)]).flatten

/-- `stats_line` of step 7: `"# STATS: " + " | ".join(metadata_parts)` with
`metadata_parts` the `"{english_label} = {value}"` strings. -/
def stats_line_of (results : List (Str × Str)) : Str :=
  "# STATS: ".data ++
    pyJoin " | ".data (results.map fun lv => english_label lv.1 ++ " = ".data ++ lv.2)

/-- The `"{and_str} | {or_str} | {not_str}"` criteria text of header
line 2 of `analyze_and_combine_csvs`. -/
def criteria_str (config : SearchConfig) : Str :=
  "AND: (".data ++ pyJoin ", ".data config.AND ++ ") | OR GROUPS: ".data ++
    pyJoin " AND ".data
      (config.OR_GROUPS.map fun g => "(".data ++ pyJoin " OR ".data g ++ ")".data) ++
    " | NOT: (".data ++ pyJoin ", ".data config.NOT ++ ")".data

/-- The five `header_lines` of step 7 of `analyze_and_combine_csvs`. -/
def make_header_lines (name : Str) (config : SearchConfig) (results : List (Str × Str)) :
    List Str :=
  ["# GROUP: ".data ++ name,
   "# Applied Criteria: ".data ++ criteria_str config,
   "#--------------------------------------".data,
   stats_line_of results,
   "#--------------------------------------".data]

/-- First-match association lookup (used through `dictGet`, which gives it
Python-dict semantics). -/
def assocFind {α β : Type} [DecidableEq α] (k : α) : List (α × β) → Option β
  | [] => none
  | (k', v) :: rest => if k' = k then some v else assocFind k rest

/-- Lookup in a Python dict built by inserting the pairs in list order: the
last insertion of a key wins. -/
def dictGet (m : List (Str × ℚ)) (k : Str) : Option ℚ := assocFind k m.reverse

/-- The body of the `for part in parts` loop of `extract_stats_from_csv`:
`key, value = part.split('=', 1)` guarded by `'=' in part`, then
`float(value.strip())` (a failed conversion adds no entry), keyed by
`key.strip()`. -/
def parse_pair (part : Str) : Option (Str × ℚ) :=
  match splitFirstEq part with
  | none => none
  | some kv =>
    match pyFloat (pyStrip kv.2) with
    | none => none
    | some q => some (pyStrip kv.1, q)

/-- The `stats_map` built from a `# STATS:` line by
`extract_stats_from_csv`:
`line.strip().replace('# STATS:', '').strip()`, split on `' | '`, each
part parsed by `parse_pair`. -/
def parse_stats_pairs (line : Str) : List (Str × ℚ) :=
  let stats_str := pyStrip (pyReplace "# STATS:".data [] (pyStrip line))
  (pySplit " | ".data stats_str).filterMap parse_pair

/-- The consolidation loop of `extract_stats_from_csv`: for each requested
metric, keep it only when both `"{metric} Mean"` and `"{metric} Std"` are
in the stats map. -/
def collect_metric_stats (pairs : List (Str × ℚ)) (metrics : List Str) :
    List (Str × ℚ × ℚ) :=
  metrics.filterMap fun m =>
    match dictGet pairs (m ++ " Mean".data), dictGet pairs (m ++ " Std".data) with
    | some a, some b => some (m, a, b)
    | _, _ => none

/-- `extract_stats_from_csv` (lines 284-338): walk the file's lines from
the top; stop (empty result) at the first line that is not `#`-prefixed;
on the first `# STATS:` line, parse it and return the consolidated
metric statistics. -/
def extract_stats_from_csv (metrics : List Str) : List Str → List (Str × ℚ × ℚ)
  | [] => []
  | line :: rest =>
    if ("#".data).isPrefixOf line = false then []
    else if ("# STATS:".data).isPrefixOf line then
      collect_metric_stats (parse_stats_pairs line) metrics
    else extract_stats_from_csv metrics rest

/-- Conditions on a metric/column name under which the header round-trips:
nonempty, no leading whitespace, and free of the characters that collide
with the serialized syntax (`|` the joiner, `=` the pair separator, `#`
the comment marker, `M` which could complete a spurious `" Media"`, and
the newline). -/
def MetricSafe (m : Str) : Prop :=
  m ≠ [] ∧ m.dropWhile wsp = m ∧ '|' ∉ m ∧ '=' ∉ m ∧ '#' ∉ m ∧ 'M' ∉ m ∧ '\n' ∉ m

instance (m : Str) : Decidable (MetricSafe m) :=
  decidable_of_iff
    (m ≠ [] ∧ m.dropWhile wsp = m ∧ '|' ∉ m ∧ '=' ∉ m ∧ '#' ∉ m ∧ 'M' ∉ m ∧ '\n' ∉ m)
    Iff.rfl

/-- The `metadata_parts` strings of `stats_line` (one `"{label} = {value}"`
per result row, with the label anglicized). -/
def stats_parts (results : List (Str × Str)) : List Str :=
  results.map fun lv => english_label lv.1 ++ " = ".data ++ lv.2

/-- The `metadata_line` list built by `analyze_filtered_csvs`
(`prestep2_lie_to_csv_and_etotal.py`, lines 174-179): the cells of one csv
row — the `"# METADATA:"` cell followed by one
`f"{label.replace(':', '')} = {value}"` cell per result. -/
def prestep2_metadata_row (results : List (Str × Str)) : List Str :=
  "# METADATA:".data ::
    results.map fun lv => (lv.1.filter fun c => c ≠ ':') ++ " = ".data ++ lv.2

/-- One cell as `csv.writer` (QUOTE_MINIMAL) serializes it: quoted, inner
quotes doubled, only when the cell contains the delimiter, a quote or a
line break. -/
def csvQuoteCell (cell : Str) : Str :=
  if cell.any fun c => c == ',' || c == '"' || c == '\n' || c == '\r' then
    '"' :: ((cell.map fun c => if c == '"' then ['"', '"'] else [c]).flatten ++ ['"'])
  else cell

/-- `csv.writer.writerow(row)` without the line terminator: the quoted
cells joined by the comma delimiter. -/
def csvWriteRow (row : List Str) : Str := pyJoin ",".data (row.map csvQuoteCell)

/-- Converted table `A_FE_104.csv` of the end-to-end scenario:
EELEC rows −10 and −12, EVDW rows −2 and −3 (ETOTAL their sums). -/
def tableA : List EnergyRow := [⟨-10, -2, -12⟩, ⟨-12, -3, -15⟩]

/-- Converted table `B_FE_104.csv` of the end-to-end scenario:
EELEC row −11, EVDW row −2.5. -/
def tableB : List EnergyRow := [⟨-11, -5/2, -27/2⟩]

/-- The scenario's configuration: required `["104"]`, one alternative
group `[["FE"]]`, no excluded terms. -/
def c2Config : SearchConfig := ⟨["104".data], [["FE".data]], []⟩

/-- The scenario's directory: the two converted tables with their names. -/
def c2Files : List (Str × List EnergyRow) :=
  [("A_FE_104.csv".data, tableA), ("B_FE_104.csv".data, tableB)]

/-- A filesystem: newest-first association of path to content. -/
abbrev FS : Type := List (Str × Str)

/-- Read a file: the most recent write to the path. -/
def lookupFile (fs : FS) (p : Str) : Option Str := assocFind p fs

/-- The two filesystem effects of the header-insertion code:
`open(temp_file, 'w')` followed by writes, and `os.replace(src, dst)`. -/
inductive FsOp : Type
  | writeFile (path content : Str)
  | replaceFile (src dst : Str)

/-- Remove every entry of a path (a rename unlinks its source, and the
destination's old content is superseded). -/
def removeFile (fs : FS) (p : Str) : FS := fs.filter fun e => !(e.1 == p)

/-- Apply one effect. A write installs the new content; `os.replace`
moves the source's content onto the destination atomically (no effect if
the source does not exist). -/
def applyOp (fs : FS) : FsOp → FS
  | FsOp.writeFile p c => (p, c) :: fs
  | FsOp.replaceFile src dst =>
      match assocFind src fs with
      | some c => (dst, c) :: removeFile (removeFile fs src) dst
      | none => fs

/-- Run a sequence of effects in order. -/
def runOps (fs : FS) (ops : List FsOp) : FS := ops.foldl applyOp fs

/-- The temporary name `output_csv_file + ".tmp"` used by both scripts. -/
def tmpName (path : Str) : Str := path ++ ".tmp".data

/-- The header-insertion sequence of `analyze_and_combine_csvs` and
`analyze_filtered_csvs`: write header plus original content to the
temporary file, then `os.replace(temp_file, csv_file)`. -/
def insert_header_ops (path header data : Str) : List FsOp :=
  [FsOp.writeFile (tmpName path) (header ++ data),
   FsOp.replaceFile (tmpName path) path]

/-- A search configuration as listed in `SEARCH_CONFIGS`: its `NAME` plus
the query clauses. -/
structure NamedConfig where
  NAME : Str
  query : SearchConfig

/-- One iteration of the configuration loop of `analyze_and_combine_csvs`:
the `generated_files` entry (name, output path) the iteration adds, or
`none` when the iteration hits a `continue` (no file matched the query,
or no matching file yielded a usable DataFrame). -/
def processOne (files : List (Str × List EnergyRow)) (cfg : NamedConfig) :
    Option (Str × Str) :=
  if (files.filter fun f => matches_boolean_query f.1 cfg.query).isEmpty then none
  else if ((files.filter fun f => matches_boolean_query f.1 cfg.query).filter
      fun f => !f.2.isEmpty).isEmpty then none
  else some (cfg.NAME, get_descriptive_name cfg.query ++ "_STATS.csv".data)

/-- The configuration loop of `analyze_and_combine_csvs`: the
`generated_files` mapping accumulated over the configurations in order
(each successful configuration writes exactly the path it maps to). -/
def analyze_and_combine_csvs (files : List (Str × List EnergyRow))
    (configs : List NamedConfig) : List (Str × Str) :=
  configs.filterMap (processOne files)

/-- A plot bin of `PLOT_GROUPS`: its axis label and the configuration
names it references. -/
structure PlotBin where
  X_LABEL : Str
  CONFIG_NAMES : List Str

/-- `next((L for L in ligands if L.lower() == prefix.lower()), None)`
applied to `config_name.split('-')[0]`. -/
def findLigand (ligands : List Str) (name : Str) : Option Str :=
  ligands.find? fun L => lowerStr L == lowerStr ((pySplit "-".data name).headD [])

/-- The inner `for config_name in group['CONFIG_NAMES']` loop of
`generate_bar_chart`: `none` once the bin is invalidated (a name missing
from `generated_files`, or a name whose prefix before the first hyphen
matches no ligand), otherwise the accumulated `group_data` entries, keyed
`ligand ++ metric`. -/
def collectGroupAux (generated : List (Str × Str)) (contents : List (Str × List Str))
    (ligands metrics : List Str) :
    List Str → List (Str × ℚ × ℚ) → Option (List (Str × ℚ × ℚ))
  | [], acc => some acc
  | name :: rest, acc =>
    match assocFind name generated with
    | none => none
    | some path =>
      match findLigand ligands name with
      | none => none
      | some L =>
        collectGroupAux generated contents ligands metrics rest
          (acc ++ (extract_stats_from_csv metrics
            ((assocFind path contents).getD [])).map fun s => (L ++ s.1, s.2))

/-- One bin's `data_points` entry: `group_data` when the bin stayed valid
and collected at least one entry, otherwise the `None` placeholder. -/
def collectBin (generated : List (Str × Str)) (contents : List (Str × List Str))
    (ligands metrics : List Str) (b : PlotBin) : Option (List (Str × ℚ × ℚ)) :=
  match collectGroupAux generated contents ligands metrics b.CONFIG_NAMES [] with
  | none => none
  | some data => if data.isEmpty then none else some data

/-- `valid_data_points` zipped with `valid_x_labels`: the bins whose
placeholder is not `None`, in order. -/
def validPoints (generated : List (Str × Str)) (contents : List (Str × List Str))
    (ligands metrics : List Str) (bins : List PlotBin) :
    List (Str × List (Str × ℚ × ℚ)) :=
  bins.filterMap fun b =>
    match collectBin generated contents ligands metrics b with
    | some d => some (b.X_LABEL, d)
    | none => none

/-- The data-collection phase of `generate_bar_chart`: `none` when no
chart is produced (no aggregated files at all, or every bin was
dropped), otherwise the plotted labels and data. -/
def generate_bar_chart_data (generated : List (Str × Str))
    (contents : List (Str × List Str)) (ligands metrics : List Str)
    (bins : List PlotBin) : Option (List (Str × List (Str × ℚ × ℚ))) :=
  if generated.isEmpty then none
  else if (validPoints generated contents ligands metrics bins).isEmpty then none
  else some (validPoints generated contents ligands metrics bins)

/-- An atom of a PDB structure; only its B-factor is relevant here. -/
structure Atom where
  bfactor : ℚ

/-- A residue: its sequence number `residue.id[1]` and its atoms. -/
structure Residue where
  resSeq : ℤ
  atoms : List Atom

/-- A chain: its residues. -/
structure Chain where
  residues : List Residue

/-- A model: its chains. -/
structure PdbModel where
  chains : List Chain

/-- A parsed PDB structure: its models. -/
structure PDBStructure where
  models : List PdbModel

/-- `map_interactions_to_pdb` (fancy_pdb_maker.py, lines 20-43): walk
every model, chain and residue; when the residue number keys the
interactions dictionary, set every atom's B-factor to the value times -1,
otherwise to 0.0. -/
def map_interactions_to_pdb (interactions_dict : List (ℤ × ℚ))
    (s : PDBStructure) : PDBStructure :=
  ⟨s.models.map fun m =>
    ⟨m.chains.map fun ch =>
      ⟨ch.residues.map fun r =>
        match assocFind r.resSeq interactions_dict with
        | some v => ⟨r.resSeq, r.atoms.map fun _ => ⟨v * (-1)⟩⟩
        | none => ⟨r.resSeq, r.atoms.map fun _ => ⟨0⟩⟩⟩⟩⟩

lemma isSubstring_iff (n : Str) (h : Str) : isSubstring n h = true ↔ n <:+: h := by
  induction h with
  | nil => simp [isSubstring, List.isEmpty_iff, List.infix_nil]
  | cons c rest ih =>
    simp only [isSubstring, Bool.or_eq_true, List.isPrefixOf_iff_prefix, ih,
      List.infix_cons_iff]

/-- C1: `matches_boolean_query(F, C)` returns true iff F contains every
required (`AND`) term, at least one term from every alternative (`OR`)
group, and no excluded (`NOT`) term, each as a case-insensitive
substring. -/
theorem matches_boolean_query_spec (filename : Str) (config : SearchConfig) :
    matches_boolean_query filename config = true ↔
      ((∀ k ∈ config.AND, containsCI filename k) ∧
       (∀ g ∈ config.OR_GROUPS, ∃ k ∈ g, containsCI filename k) ∧
       (∀ k ∈ config.NOT, ¬ containsCI filename k)) := by
  simp only [matches_boolean_query, containsCI, List.all_eq_true, List.any_eq_true,
    Bool.and_eq_true, isSubstring_iff, Bool.not_eq_true', List.any_eq_false]
  tauto

/-- C9: the empty query configuration (no required terms, no alternative
groups, no excluded terms) matches every filename. -/
theorem matches_boolean_query_empty (filename : Str) :
    matches_boolean_query filename ⟨[], [], []⟩ = true := rfl

lemma empty_query_chars : ∀ ch ∈ "Empty_Query".data, isWordChar ch = true ∨ ch = '-' := by
  decide

lemma isEmpty_congr {α β : Type} {l : List α} {l' : List β} (h : l = [] ↔ l' = []) :
    l.isEmpty = l'.isEmpty := by
  by_cases hc : l = []
  · rw [List.isEmpty_iff.mpr hc, List.isEmpty_iff.mpr (h.mp hc)]
  · have h1 : l.isEmpty = false := by
      rcases l with _ | ⟨a, t⟩
      · exact absurd rfl hc
      · rfl
    have h2 : l'.isEmpty = false := by
      have hne : l' ≠ [] := fun hh => hc (h.mpr hh)
      rcases l' with _ | ⟨a, t⟩
      · exact absurd rfl hne
      · rfl
    rw [h1, h2]

lemma mem_sanitizeName (s : Str) (ch : Char) (hch : ch ∈ sanitizeName s) :
    isWordChar ch = true ∨ ch = '-' := by
  rw [sanitizeName, List.mem_map] at hch
  obtain ⟨c, -, hc⟩ := hch
  by_cases h : (isWordChar c || c == '-') = true
  · rw [if_pos h] at hc
    subst hc
    simpa [Bool.or_eq_true] using h
  · rw [if_neg h] at hc
    subst hc
    left
    decide

lemma descr_chars (s : Str) (ch : Char)
    (hch : ch ∈ (if (sanitizeName s).isEmpty then "Empty_Query".data else sanitizeName s)) :
    isWordChar ch = true ∨ ch = '-' := by
  split at hch
  · exact empty_query_chars ch hch
  · exact mem_sanitizeName s ch hch

lemma orGroupNames_congr {gs gs' : List (List Str)}
    (h : gs.map (fun g => (g.take 2, decide (2 < g.length)))
       = gs'.map (fun g => (g.take 2, decide (2 < g.length)))) :
    ∀ i, orGroupNames i gs = orGroupNames i gs' := by
  induction gs generalizing gs' with
  | nil =>
    cases gs' with
    | nil => intro i; rfl
    | cons g' t' => simp at h
  | cons g t ih =>
    cases gs' with
    | nil => simp at h
    | cons g' t' =>
      simp only [List.map_cons, List.cons.injEq, Prod.mk.injEq] at h
      intro i
      simp only [orGroupNames, h.1.1, ih h.2 (i + 1),
        if_congr (decide_eq_decide.mp h.1.2) rfl rfl]

/-- C4 counterexample: the claim says the excluded-term (`NOT`) list is
truncated to its first two items plus an "etc" marker, which would give
identical labels to two configurations agreeing on their first two `NOT`
items (both of length three); `get_descriptive_name` keeps three items, so
their labels differ. -/
theorem get_descriptive_name_not_truncated_at_two :
    get_descriptive_name ⟨[], [], ["a".data, "b".data, "c".data]⟩ ≠
      get_descriptive_name ⟨[], [], ["a".data, "b".data, "d".data]⟩ := by decide

/-- C4 (amended): the descriptive-label generator is deterministic and
idempotent, its output contains only word characters and hyphens, and it
depends only on each alternative group's first two items (plus whether the
group is longer than two) and on the excluded-term list's first THREE items
(plus whether that list is longer than three) — so alternative groups are
truncated at two items and the excluded-term list at three, each with an
"etc" marker beyond the cut. -/
theorem get_descriptive_name_amended (c c' : SearchConfig)
    (hAND : c.AND = c'.AND)
    (hOR : c.OR_GROUPS.map (fun g => (g.take 2, decide (2 < g.length)))
         = c'.OR_GROUPS.map (fun g => (g.take 2, decide (2 < g.length))))
    (hNOT : c.NOT.take 3 = c'.NOT.take 3)
    (hNOTlen : 3 < c.NOT.length ↔ 3 < c'.NOT.length) :
    get_descriptive_name c = get_descriptive_name c ∧
    (∀ ch ∈ get_descriptive_name c, isWordChar ch = true ∨ ch = '-') ∧
    get_descriptive_name c = get_descriptive_name c' := by
  refine ⟨rfl, ?_, ?_⟩
  · intro ch hch
    simp only [get_descriptive_name] at hch
    exact descr_chars _ ch hch
  · have hORempty : c.OR_GROUPS.isEmpty = c'.OR_GROUPS.isEmpty := by
      refine isEmpty_congr ⟨fun hh => ?_, fun hh => ?_⟩
      · rw [hh] at hOR
        exact List.map_eq_nil_iff.mp hOR.symm
      · rw [hh] at hOR
        exact List.map_eq_nil_iff.mp hOR
    have hNOTempty : c.NOT.isEmpty = c'.NOT.isEmpty := by
      refine isEmpty_congr ⟨fun hh => ?_, fun hh => ?_⟩
      · rw [hh] at hNOT
        rcases hy : c'.NOT with _ | ⟨a, t⟩
        · rfl
        · rw [hy] at hNOT
          simp at hNOT
      · rw [hh] at hNOT
        rcases hy : c.NOT with _ | ⟨a, t⟩
        · rfl
        · rw [hy] at hNOT
          simp at hNOT
    simp only [get_descriptive_name]
    rw [hAND, hORempty, hNOTempty, orGroupNames_congr hOR 0, hNOT,
      if_congr hNOTlen rfl rfl]

/-- Witness for C4 (amended) at two concrete configurations differing only
beyond the truncation points. -/
theorem get_descriptive_name_amended_witness :
    ((["x".data, "y".data, "z".data, "w".data] : List Str).take 3
        = (["x".data, "y".data, "z".data, "q".data] : List Str).take 3) ∧
    get_descriptive_name ⟨["HW".data], [["a".data, "b".data, "c".data]],
        ["x".data, "y".data, "z".data, "w".data]⟩ =
      get_descriptive_name ⟨["HW".data], [["a".data, "b".data, "zz".data]],
        ["x".data, "y".data, "z".data, "q".data]⟩ :=
  ⟨by decide,
   (get_descriptive_name_amended
      ⟨["HW".data], [["a".data, "b".data, "c".data]],
        ["x".data, "y".data, "z".data, "w".data]⟩
      ⟨["HW".data], [["a".data, "b".data, "zz".data]],
        ["x".data, "y".data, "z".data, "q".data]⟩
      (by decide) (by decide) (by decide) (by decide)).2.2⟩

lemma digitChar_spec (k : Nat) :
    (digitChar k).isDigit = true ∧ wsp (digitChar k) = false ∧
    digitChar k ≠ '-' ∧ digitChar k ≠ '.' ∧ digitChar k ≠ '+' ∧ digitChar k ≠ '=' ∧
    digitChar k ≠ '|' ∧ digitChar k ≠ '#' ∧ digitChar k ≠ 'M' ∧ digitChar k ≠ ',' ∧
    digitChar k ≠ '\n' := by
  match k with
  | 0 | 1 | 2 | 3 | 4 | 5 | 6 | 7 | 8 => decide
  | (m + 9) =>
    show ('9').isDigit = true ∧ wsp '9' = false ∧ '9' ≠ '-' ∧ '9' ≠ '.' ∧ '9' ≠ '+' ∧
      '9' ≠ '=' ∧ '9' ≠ '|' ∧ '9' ≠ '#' ∧ '9' ≠ 'M' ∧ '9' ≠ ',' ∧ '9' ≠ '\n'
    decide

lemma digitVal_digitChar {k : Nat} (hk : k < 10) : digitVal (digitChar k) = k := by
  interval_cases k <;> decide

lemma digitsVal_concat (a : Str) (c : Char) :
    digitsVal (a ++ [c]) = 10 * digitsVal a + digitVal c := by
  simp [digitsVal, List.foldl_append]

lemma natToStrF_spec :
    ∀ f n, n < f →
      (∀ c ∈ natToStrF f n, ∃ k, k < 10 ∧ c = digitChar k) ∧
      digitsVal (natToStrF f n) = n ∧ natToStrF f n ≠ [] := by
  intro f
  induction f with
  | zero => intro n hn; omega
  | succ f ih =>
    intro n hn
    by_cases h10 : n < 10
    · rw [natToStrF, if_pos h10]
      refine ⟨?_, ?_, by simp⟩
      · intro c hc
        rw [List.mem_singleton] at hc
        exact ⟨n, h10, hc⟩
      · simp [digitsVal, digitVal_digitChar h10]
    · have hd : n / 10 < f := by
        have := Nat.div_lt_self (by omega : 0 < n) (by omega : 1 < 10)
        omega
      obtain ⟨ihc, ihv, ihne⟩ := ih (n / 10) hd
      rw [natToStrF, if_neg h10]
      refine ⟨?_, ?_, by simp⟩
      · intro c hc
        rw [List.mem_append, List.mem_singleton] at hc
        rcases hc with hc | hc
        · exact ihc c hc
        · exact ⟨n % 10, by omega, hc⟩
      · rw [digitsVal_concat, ihv, digitVal_digitChar (by omega : n % 10 < 10)]
        omega

lemma natToStr_spec (n : Nat) :
    (∀ c ∈ natToStr n, ∃ k, k < 10 ∧ c = digitChar k) ∧
    digitsVal (natToStr n) = n ∧ natToStr n ≠ [] :=
  natToStrF_spec (n + 1) n (Nat.lt_succ_self n)

lemma dropWhile_cons_false {c : Char} {t : Str} (h : wsp c = false) :
    (c :: t).dropWhile wsp = c :: t := by
  simp [List.dropWhile_cons, h]

lemma pyStrip_eq_self {c d : Char} (t : Str) (hc : wsp c = false) (hd : wsp d = false) :
    pyStrip (c :: (t ++ [d])) = c :: (t ++ [d]) := by
  have h1 : c :: (t ++ [d]) = (c :: t) ++ [d] := rfl
  rw [pyStrip, dropWhile_cons_false hc, h1, List.reverse_append]
  simp only [List.reverse_cons, List.reverse_nil, List.nil_append, List.singleton_append]
  rw [dropWhile_cons_false hd]
  simp

lemma pyStrip_ws_cons {c : Char} (s : Str) (hc : wsp c = true) :
    pyStrip (c :: s) = pyStrip s := by
  simp [pyStrip, List.dropWhile_cons, hc]

lemma isPrefixOf_append_self (l u : Str) : l.isPrefixOf (l ++ u) = true := by
  induction l with
  | nil => simp [List.isPrefixOf]
  | cons c t ih => simp [List.isPrefixOf, ih]

lemma splitOnF_fuel (sep : Str) :
    ∀ f f' s, s.length ≤ f → s.length ≤ f' → splitOnF sep f s = splitOnF sep f' s := by
  intro f
  induction f with
  | zero =>
    intro f' s hf _
    cases s with
    | nil => simp [splitOnF]
    | cons c rest => simp at hf
  | succ f ih =>
    intro f' s hf hf'
    cases s with
    | nil => simp [splitOnF]
    | cons c rest =>
      cases f' with
      | zero => simp at hf'
      | succ f'' =>
        have hlen : 0 < sep.length ∨ sep = [] := by
          cases sep with
          | nil => exact Or.inr rfl
          | cons a b => exact Or.inl (by simp)
        by_cases hcond : sep ≠ [] ∧ sep.isPrefixOf (c :: rest) = true
        · have hdrop : ((c :: rest).drop sep.length).length ≤ f ∧
              ((c :: rest).drop sep.length).length ≤ f'' := by
            rcases hlen with hl | hl
            · constructor <;> · rw [List.length_drop]; simp at hf hf' ⊢; omega
            · exact absurd hl hcond.1
          rw [splitOnF, splitOnF, if_pos hcond, if_pos hcond, ih f'' _ hdrop.1 hdrop.2]
        · have hr : rest.length ≤ f ∧ rest.length ≤ f'' := by
            simp at hf hf'
            omega
          rw [splitOnF, splitOnF, if_neg hcond, if_neg hcond, ih f'' rest hr.1 hr.2]

lemma replaceF_fuel (pat repl : Str) :
    ∀ f f' s, s.length ≤ f → s.length ≤ f' → replaceF pat repl f s = replaceF pat repl f' s := by
  intro f
  induction f with
  | zero =>
    intro f' s hf _
    cases s with
    | nil => simp [replaceF]
    | cons c rest => simp at hf
  | succ f ih =>
    intro f' s hf hf'
    cases s with
    | nil => simp [replaceF]
    | cons c rest =>
      cases f' with
      | zero => simp at hf'
      | succ f'' =>
        by_cases hcond : pat ≠ [] ∧ pat.isPrefixOf (c :: rest) = true
        · have hp : 0 < pat.length := by
            cases pat with
            | nil => exact absurd rfl hcond.1
            | cons a b => simp
          have hdrop : ((c :: rest).drop pat.length).length ≤ f ∧
              ((c :: rest).drop pat.length).length ≤ f'' := by
            constructor <;> · rw [List.length_drop]; simp at hf hf' ⊢; omega
          rw [replaceF, replaceF, if_pos hcond, if_pos hcond, ih f'' _ hdrop.1 hdrop.2]
        · have hr : rest.length ≤ f ∧ rest.length ≤ f'' := by
            simp at hf hf'
            omega
          rw [replaceF, replaceF, if_neg hcond, if_neg hcond, ih f'' rest hr.1 hr.2]

lemma mem_of_infixP {c : Char} {l s : Str} (h : l <:+: s) (hc : c ∈ l) : c ∈ s := by
  obtain ⟨u, v, huv⟩ := h
  rw [← huv]
  simp [hc]

lemma not_infix_of_not_mem {c : Char} {l s : Str} (hc : c ∈ l) (hs : c ∉ s) : ¬ l <:+: s :=
  fun h => hs (mem_of_infixP h hc)

lemma pyReplace_of_not_infixP {pat : Str} (repl : Str) :
    ∀ s, ¬ pat <:+: s → pyReplace pat repl s = s := by
  have main : ∀ f s, s.length ≤ f → ¬ pat <:+: s → replaceF pat repl f s = s := by
    intro f
    induction f with
    | zero =>
      intro s hf _
      cases s with
      | nil => simp [replaceF]
      | cons c rest => simp at hf
    | succ f ih =>
      intro s hf hinf
      cases s with
      | nil => simp [replaceF]
      | cons c rest =>
        have hcond : ¬ (pat ≠ [] ∧ pat.isPrefixOf (c :: rest) = true) := by
          rintro ⟨-, hpre⟩
          exact hinf (List.isPrefixOf_iff_prefix.mp hpre).isInfix
        rw [replaceF, if_neg hcond]
        have : rest.length ≤ f := by simp at hf; omega
        rw [ih rest this fun hh => hinf (hh.trans (List.infix_cons (List.infix_refl rest)))]
  intro s h
  exact main s.length s le_rfl h

lemma not_prefix_of_second {a b c c2 : Char} {pr rest : Str} (hb : b ≠ c2) :
    ((a :: b :: pr) : Str).isPrefixOf (c :: c2 :: rest) = false := by
  apply Bool.eq_false_iff.mpr
  intro hT
  rw [List.isPrefixOf_iff_prefix] at hT
  obtain ⟨w, hw⟩ := hT
  simp only [List.cons_append, List.cons.injEq] at hw
  exact hb hw.2.1

lemma not_prefix_of_short {a b : Char} {pr : Str} (c : Char) :
    ((a :: b :: pr) : Str).isPrefixOf [c] = false := by
  simp [List.isPrefixOf]

lemma splitOnF_pipe_no_occur : ∀ f s, s.length ≤ f → '|' ∉ s → splitOnF " | ".data f s = [s] := by
  intro f
  induction f with
  | zero =>
    intro s hf _
    cases s with
    | nil => simp [splitOnF]
    | cons c rest => simp at hf
  | succ f ih =>
    intro s hf hmem
    cases s with
    | nil => simp [splitOnF]
    | cons c rest =>
      have hp : (" | ".data).isPrefixOf (c :: rest) = false := by
        cases rest with
        | nil => exact not_prefix_of_short c
        | cons c2 r2 =>
          exact not_prefix_of_second fun hh => hmem (by simp [← hh])
      rw [splitOnF, if_neg (by simp [hp])]
      have hr : rest.length ≤ f := by simp at hf; omega
      rw [ih rest hr fun hh => hmem (List.mem_cons_of_mem c hh)]
      rfl

/-- Python split on `" | "` of a pipe-free string is the whole string. -/
lemma pySplit_pipe_no_occur (s : Str) (h : '|' ∉ s) : pySplit " | ".data s = [s] :=
  splitOnF_pipe_no_occur s.length s le_rfl h

lemma pySplit_pipe_boundary : ∀ p t, '|' ∉ p →
    pySplit " | ".data (p ++ " | ".data ++ t) = p :: pySplit " | ".data t := by
  intro p
  induction p with
  | nil =>
    intro t _
    have hs : ((([] : Str) ++ " | ".data ++ t) : Str) = ' ' :: ('|' :: (' ' :: t)) := rfl
    rw [pySplit, hs]
    have hlen : (' ' :: ('|' :: (' ' :: t))).length = (t.length + 2) + 1 := by
      simp only [List.length_cons]
    rw [hlen, splitOnF, if_pos ⟨by decide, isPrefixOf_append_self " | ".data t⟩]
    have hd : ((' ' :: ('|' :: (' ' :: t))).drop (" | ".data).length) = t := rfl
    rw [hd, splitOnF_fuel " | ".data (t.length + 2) t.length t (by omega) le_rfl]
    rfl
  | cons c p' ih =>
    intro t hmem
    have hshape : (c :: p') ++ " | ".data ++ t = c :: (p' ++ " | ".data ++ t) := by simp
    rw [pySplit, hshape]
    simp only [List.length_cons]
    rw [splitOnF]
    have hp : (" | ".data).isPrefixOf (c :: (p' ++ " | ".data ++ t)) = false := by
      cases p' with
      | nil => exact not_prefix_of_second (by decide)
      | cons c2 p'' =>
        exact not_prefix_of_second fun hh => hmem (by simp [← hh])
    have hcond : ¬ (" | ".data ≠ [] ∧
        (" | ".data).isPrefixOf (c :: (p' ++ " | ".data ++ t)) = true) := by
      rintro ⟨-, hh⟩
      rw [hp] at hh
      exact Bool.false_ne_true hh
    rw [if_neg hcond]
    have hrec : splitOnF " | ".data (p' ++ " | ".data ++ t).length (p' ++ " | ".data ++ t)
        = p' :: pySplit " | ".data t := ih t fun hh => hmem (List.mem_cons_of_mem c hh)
    rw [hrec]
    rfl

/-- Python split on `" | "` inverts `" | ".join` on pipe-free parts. -/
lemma pySplit_pipe_join : ∀ ps : List Str, ps ≠ [] → (∀ p ∈ ps, '|' ∉ p) →
    pySplit " | ".data (pyJoin " | ".data ps) = ps := by
  intro ps
  induction ps with
  | nil => intro h _; exact absurd rfl h
  | cons p ps' ih =>
    intro _ hfree
    cases ps' with
    | nil => exact pySplit_pipe_no_occur p (hfree p (by simp))
    | cons q ps'' =>
      rw [pyJoin, pySplit_pipe_boundary p _ (hfree p (by simp)),
        ih (by simp) fun r hr => hfree r (List.mem_cons_of_mem p hr)]

lemma comma_not_prefixP {c : Char} (rest : Str) (hc : c ≠ ',') :
    (",".data).isPrefixOf (c :: rest) = false := by
  apply Bool.eq_false_iff.mpr
  intro hT
  rw [List.isPrefixOf_iff_prefix] at hT
  obtain ⟨w, hw⟩ := hT
  simp only [List.cons_append, List.nil_append, List.cons.injEq] at hw
  exact hc hw.1.symm

lemma splitOnF_comma_no_occur : ∀ f s, s.length ≤ f → ',' ∉ s → splitOnF ",".data f s = [s] := by
  intro f
  induction f with
  | zero =>
    intro s hf _
    cases s with
    | nil => simp [splitOnF]
    | cons c rest => simp at hf
  | succ f ih =>
    intro s hf hmem
    cases s with
    | nil => simp [splitOnF]
    | cons c rest =>
      have hp : (",".data).isPrefixOf (c :: rest) = false :=
        comma_not_prefixP rest fun hh => hmem (by simp [hh])
      rw [splitOnF, if_neg (by simp [hp])]
      have hr : rest.length ≤ f := by simp at hf; omega
      rw [ih rest hr fun hh => hmem (List.mem_cons_of_mem c hh)]
      rfl

/-- Python split on `","` of a comma-free string is the whole string. -/
lemma pySplit_comma_no_occur (s : Str) (h : ',' ∉ s) : pySplit ",".data s = [s] :=
  splitOnF_comma_no_occur s.length s le_rfl h

lemma pySplit_comma_boundary : ∀ p t, ',' ∉ p →
    pySplit ",".data (p ++ ",".data ++ t) = p :: pySplit ",".data t := by
  intro p
  induction p with
  | nil =>
    intro t _
    have hs : ((([] : Str) ++ ",".data ++ t) : Str) = ',' :: t := rfl
    rw [pySplit, hs]
    have hlen : (',' :: t).length = t.length + 1 := by simp only [List.length_cons]
    rw [hlen, splitOnF, if_pos ⟨by decide, isPrefixOf_append_self ",".data t⟩]
    rfl
  | cons c p' ih =>
    intro t hmem
    have hshape : (c :: p') ++ ",".data ++ t = c :: (p' ++ ",".data ++ t) := by simp
    rw [pySplit, hshape]
    simp only [List.length_cons]
    rw [splitOnF]
    have hp : (",".data).isPrefixOf (c :: (p' ++ ",".data ++ t)) = false :=
      comma_not_prefixP _ fun hh => hmem (by simp [hh])
    have hcond : ¬ (",".data ≠ [] ∧
        (",".data).isPrefixOf (c :: (p' ++ ",".data ++ t)) = true) := by
      rintro ⟨-, hh⟩
      rw [hp] at hh
      exact Bool.false_ne_true hh
    rw [if_neg hcond]
    have hrec : splitOnF ",".data (p' ++ ",".data ++ t).length (p' ++ ",".data ++ t)
        = p' :: pySplit ",".data t := ih t fun hh => hmem (List.mem_cons_of_mem c hh)
    rw [hrec]
    rfl

/-- Python split on `","` inverts `",".join` on comma-free parts. -/
lemma pySplit_comma_join : ∀ ps : List Str, ps ≠ [] → (∀ p ∈ ps, ',' ∉ p) →
    pySplit ",".data (pyJoin ",".data ps) = ps := by
  intro ps
  induction ps with
  | nil => intro h _; exact absurd rfl h
  | cons p ps' ih =>
    intro _ hfree
    cases ps' with
    | nil => exact pySplit_comma_no_occur p (hfree p (by simp))
    | cons q ps'' =>
      rw [pyJoin, pySplit_comma_boundary p _ (hfree p (by simp)),
        ih (by simp) fun r hr => hfree r (List.mem_cons_of_mem p hr)]

lemma pyReplace_strip_prefixP (pat repl u : Str) (hpat : pat ≠ []) (hinf : ¬ pat <:+: u) :
    pyReplace pat repl (pat ++ u) = repl ++ u := by
  cases pat with
  | nil => exact absurd rfl hpat
  | cons c pt =>
    have hshape : (c :: pt) ++ u = c :: (pt ++ u) := by simp
    rw [pyReplace, hshape]
    simp only [List.length_cons]
    rw [replaceF, if_pos ⟨hpat, by rw [← hshape]; exact isPrefixOf_append_self (c :: pt) u⟩]
    have hdrop : (c :: (pt ++ u)).drop (c :: pt).length = u := by
      rw [← hshape]
      exact List.drop_left _ _
    rw [hdrop, replaceF_fuel (c :: pt) repl (pt ++ u).length u.length u (by simp) le_rfl]
    rw [show replaceF (c :: pt) repl u.length u = pyReplace (c :: pt) repl u from rfl,
      pyReplace_of_not_infixP repl u hinf]

lemma pyReplace_self (pat : Str) : ∀ s, pyReplace pat pat s = s := by
  have main : ∀ f s, s.length ≤ f → replaceF pat pat f s = s := by
    intro f
    induction f with
    | zero =>
      intro s hf
      cases s with
      | nil => simp [replaceF]
      | cons c rest => simp at hf
    | succ f ih =>
      intro s hf
      cases s with
      | nil => simp [replaceF]
      | cons c rest =>
        by_cases hcond : pat ≠ [] ∧ pat.isPrefixOf (c :: rest) = true
        · rw [replaceF, if_pos hcond]
          have hpre := List.isPrefixOf_iff_prefix.mp hcond.2
          have hsplit : pat ++ (c :: rest).drop pat.length = c :: rest := by
            obtain ⟨w, hw⟩ := hpre
            rw [← hw, List.drop_left]
          have hp : 0 < pat.length := by
            cases pat with
            | nil => exact absurd rfl hcond.1
            | cons a b => simp
          have hlen : ((c :: rest).drop pat.length).length ≤ f := by
            rw [List.length_drop]
            simp only [List.length_cons] at hf ⊢
            omega
          rw [ih _ hlen, hsplit]
        · rw [replaceF, if_neg hcond]
          have hr : rest.length ≤ f := by simp at hf; omega
          rw [ih rest hr]
  intro s
  exact main s.length s le_rfl

lemma pyReplace_media : ∀ m : Str, 'M' ∉ m →
    pyReplace " Media".data " Mean".data (m ++ " Media".data) = m ++ " Mean".data := by
  have main : ∀ f m, (m ++ " Media".data).length ≤ f → 'M' ∉ m →
      replaceF " Media".data " Mean".data f (m ++ " Media".data) = m ++ " Mean".data := by
    intro f
    induction f with
    | zero =>
      intro m hf _
      simp at hf
    | succ f ih =>
      intro m hf hmem
      cases m with
      | nil =>
        have hs : (([] : Str) ++ " Media".data) = ' ' :: "Media".data := rfl
        rw [hs, replaceF,
          if_pos ⟨by decide, by
            have h := isPrefixOf_append_self " Media".data ([] : Str)
            rw [List.append_nil] at h
            exact h⟩]
        have hd : ((' ' :: "Media".data).drop (" Media".data).length) = [] := rfl
        rw [hd]
        have hz : replaceF " Media".data " Mean".data f [] = [] := by
          cases f <;> simp [replaceF]
        rw [hz]
        rfl
      | cons c m' =>
        have hshape : (c :: m') ++ " Media".data = c :: (m' ++ " Media".data) := by simp
        rw [hshape, replaceF]
        have hp : (" Media".data).isPrefixOf (c :: (m' ++ " Media".data)) = false := by
          cases m' with
          | nil => exact not_prefix_of_second (by decide)
          | cons c2 m'' =>
            exact not_prefix_of_second fun hh => hmem (by simp [← hh])
        have hcond : ¬ (" Media".data ≠ [] ∧
            (" Media".data).isPrefixOf (c :: (m' ++ " Media".data)) = true) := by
          rintro ⟨-, hh⟩
          rw [hp] at hh
          exact Bool.false_ne_true hh
        rw [if_neg hcond]
        have hlen : (m' ++ " Media".data).length ≤ f := by
          have h1 : ((c :: m') ++ " Media".data).length = (m' ++ " Media".data).length + 1 := by
            simp only [List.cons_append, List.length_cons]
          omega
        rw [ih m' hlen fun hh => hmem (List.mem_cons_of_mem c hh)]
        rfl
  intro m hmem
  exact main (m ++ " Media".data).length m le_rfl hmem

lemma splitFirstEq_append (a b : Str) (ha : '=' ∉ a) :
    splitFirstEq (a ++ '=' :: b) = some (a, b) := by
  induction a with
  | nil => simp [splitFirstEq]
  | cons c a' ih =>
    have hc : c ≠ '=' := fun hh => ha (by simp [hh])
    rw [List.cons_append, splitFirstEq, if_neg hc,
      ih fun hh => ha (List.mem_cons_of_mem c hh)]
    rfl

lemma takeWhile_dot_split (a b : Str) (ha : ∀ c ∈ a, c ≠ '.') :
    (a ++ '.' :: b).takeWhile (fun c => c != '.') = a ∧
    (a ++ '.' :: b).dropWhile (fun c => c != '.') = '.' :: b := by
  induction a with
  | nil => constructor <;> simp [List.takeWhile_cons, List.dropWhile_cons]
  | cons c a' ih =>
    have hc : (c != '.') = true := by
      simp only [bne_iff_ne, ne_eq]
      exact ha c (by simp)
    obtain ⟨ih1, ih2⟩ := ih fun x hx => ha x (List.mem_cons_of_mem c hx)
    constructor
    · rw [List.cons_append, List.takeWhile_cons, if_pos hc, ih1]
    · rw [List.cons_append, List.dropWhile_cons, if_pos hc, ih2]

lemma dropWhile_eq_self_of_all (s : Str) (h : ∀ c ∈ s, wsp c = false) :
    s.dropWhile wsp = s := by
  cases s with
  | nil => rfl
  | cons c t => exact dropWhile_cons_false (h c (by simp))

lemma pyStrip_eq_self_of_all (s : Str) (h : ∀ c ∈ s, wsp c = false) : pyStrip s = s := by
  rw [pyStrip, dropWhile_eq_self_of_all s h,
    dropWhile_eq_self_of_all s.reverse fun c hc => h c (List.mem_reverse.mp hc),
    List.reverse_reverse]

lemma pad4_chars (F : Nat) : ∀ c ∈ pad4 F, ∃ k, c = digitChar k := by
  intro c hc
  simp only [pad4, List.mem_cons, List.not_mem_nil, or_false] at hc
  rcases hc with h | h | h | h <;> exact ⟨_, h⟩

lemma pad4_val {F : Nat} (hF : F < 10000) : digitsVal (pad4 F) = F := by
  have h1 : F / 1000 % 10 < 10 := Nat.mod_lt _ (by omega)
  have h2 : F / 100 % 10 < 10 := Nat.mod_lt _ (by omega)
  have h3 : F / 10 % 10 < 10 := Nat.mod_lt _ (by omega)
  have h4 : F % 10 < 10 := Nat.mod_lt _ (by omega)
  simp only [pad4, digitsVal, List.foldl_cons, List.foldl_nil, digitVal_digitChar h1,
    digitVal_digitChar h2, digitVal_digitChar h3, digitVal_digitChar h4]
  omega

lemma pyFloatCore_shape (I F : Nat) (hF : F < 10000) :
    pyFloatCore (natToStr I ++ '.' :: pad4 F) = some ((I : ℚ) + (F : ℚ) / 10000) := by
  obtain ⟨hchars, hval, hne⟩ := natToStr_spec I
  have hnodot : ∀ c ∈ natToStr I, c ≠ '.' := by
    intro c hc
    obtain ⟨k, -, hk⟩ := hchars c hc
    rw [hk]
    exact (digitChar_spec k).2.2.2.1
  have hsplit := takeWhile_dot_split (natToStr I) (pad4 F) hnodot
  rw [pyFloatCore]
  rw [if_pos (by
    rw [List.any_eq_true]
    exact ⟨'.', by simp, by simp⟩)]
  simp only [hsplit.1, hsplit.2, List.drop_succ_cons, List.drop_zero]
  rw [if_neg (by
    rw [List.any_eq_true]
    rintro ⟨c, hc, hceq⟩
    obtain ⟨k, hk⟩ := pad4_chars F c hc
    rw [hk] at hceq
    exact (digitChar_spec k).2.2.2.1 (by simpa using hceq))]
  rw [if_neg (by
    rintro ⟨h1, -⟩
    exact hne (List.isEmpty_iff.mp h1))]
  rw [if_pos ⟨by
      rw [List.all_eq_true]
      intro c hc
      obtain ⟨k, -, hk⟩ := hchars c hc
      rw [hk]
      exact (digitChar_spec k).1, by
      rw [List.all_eq_true]
      intro c hc
      obtain ⟨k, hk⟩ := pad4_chars F c hc
      rw [hk]
      exact (digitChar_spec k).1⟩]
  rw [hval, pad4_val hF]
  norm_num [pad4]

lemma format4_chars (q : ℚ) : ∀ c ∈ format4 q, (∃ k, c = digitChar k) ∨ c = '-' ∨ c = '.' := by
  intro c hc
  simp only [format4] at hc
  rw [List.mem_append, List.mem_append, List.mem_append] at hc
  rcases hc with ((h | h) | h) | h
  · split at h
    · right
      left
      simpa using h
    · simp at h
  · exact Or.inl ((natToStr_spec _).1 c h |>.imp fun k hk => hk.2)
  · right
    right
    simpa using h
  · exact Or.inl (pad4_chars _ c h)

lemma format4_no_ws (q : ℚ) : ∀ c ∈ format4 q, wsp c = false := by
  intro c hc
  rcases format4_chars q c hc with ⟨k, hk⟩ | h | h
  · rw [hk]
    exact (digitChar_spec k).2.1
  · rw [h]; decide
  · rw [h]; decide

lemma format4_shape (q : ℚ) :
    format4 q = (if roundHalfEven (q * 10000) < 0 then "-".data else []) ++
      (natToStr ((roundHalfEven (q * 10000)).natAbs / 10000) ++
        '.' :: pad4 ((roundHalfEven (q * 10000)).natAbs % 10000)) := by
  simp only [format4, List.append_assoc]
  rfl

lemma pyFloat_cons_neg (u : Str) (hstrip : pyStrip ('-' :: u) = '-' :: u) :
    pyFloat ('-' :: u) = (pyFloatCore u).map fun q => -q := by
  simp only [pyFloat, hstrip]
  rfl

lemma pyFloat_cons_other {c : Char} (u : Str) (h1 : c ≠ '-') (h2 : c ≠ '+')
    (hstrip : pyStrip (c :: u) = c :: u) :
    pyFloat (c :: u) = pyFloatCore (c :: u) := by
  simp only [pyFloat, hstrip]
  rw [if_neg h1, if_neg h2]

lemma pyFloat_format4 (q : ℚ) : pyFloat (format4 q) = some (round4 q) := by
  have hstrip : pyStrip (format4 q) = format4 q :=
    pyStrip_eq_self_of_all _ (format4_no_ws q)
  have hF : (roundHalfEven (q * 10000)).natAbs % 10000 < 10000 := Nat.mod_lt _ (by omega)
  have hval : (((roundHalfEven (q * 10000)).natAbs / 10000 : Nat) : ℚ) +
      (((roundHalfEven (q * 10000)).natAbs % 10000 : Nat) : ℚ) / 10000
      = (((roundHalfEven (q * 10000)).natAbs : Nat) : ℚ) / 10000 := by
    have hdm : 10000 * ((roundHalfEven (q * 10000)).natAbs / 10000) +
        (roundHalfEven (q * 10000)).natAbs % 10000 = (roundHalfEven (q * 10000)).natAbs :=
      Nat.div_add_mod _ _
    have hdmQ : 10000 * (((roundHalfEven (q * 10000)).natAbs / 10000 : Nat) : ℚ) +
        (((roundHalfEven (q * 10000)).natAbs % 10000 : Nat) : ℚ)
        = (((roundHalfEven (q * 10000)).natAbs : Nat) : ℚ) := by
      exact_mod_cast congrArg (fun m : Nat => (m : ℚ)) hdm
    calc (((roundHalfEven (q * 10000)).natAbs / 10000 : Nat) : ℚ) +
        (((roundHalfEven (q * 10000)).natAbs % 10000 : Nat) : ℚ) / 10000
        = (10000 * (((roundHalfEven (q * 10000)).natAbs / 10000 : Nat) : ℚ) +
            (((roundHalfEven (q * 10000)).natAbs % 10000 : Nat) : ℚ)) / 10000 := by ring
      _ = (((roundHalfEven (q * 10000)).natAbs : Nat) : ℚ) / 10000 := by rw [hdmQ]
  by_cases hneg : roundHalfEven (q * 10000) < 0
  · have habs : (((roundHalfEven (q * 10000)).natAbs : Nat) : ℚ)
        = -((roundHalfEven (q * 10000) : ℤ) : ℚ) := by
      rw [Int.cast_natAbs, Int.cast_abs]
      exact abs_of_neg (show ((roundHalfEven (q * 10000) : ℤ) : ℚ) < 0 by exact_mod_cast hneg)
    have hfmt : format4 q = '-' :: (natToStr ((roundHalfEven (q * 10000)).natAbs / 10000) ++
        '.' :: pad4 ((roundHalfEven (q * 10000)).natAbs % 10000)) := by
      rw [format4_shape, if_pos hneg]
      rfl
    rw [hfmt, pyFloat_cons_neg _ (by rw [← hfmt]; exact hfmt ▸ hstrip),
      pyFloatCore_shape _ _ hF]
    simp only [Option.map_some']
    rw [round4, hval, habs]
    ring_nf
  · have habs : (((roundHalfEven (q * 10000)).natAbs : Nat) : ℚ)
        = ((roundHalfEven (q * 10000) : ℤ) : ℚ) := by
      rw [Int.cast_natAbs, Int.cast_abs]
      exact abs_of_nonneg
        (show (0 : ℚ) ≤ ((roundHalfEven (q * 10000) : ℤ) : ℚ) by exact_mod_cast not_lt.mp hneg)
    have hfmt : format4 q = natToStr ((roundHalfEven (q * 10000)).natAbs / 10000) ++
        '.' :: pad4 ((roundHalfEven (q * 10000)).natAbs % 10000) := by
      rw [format4_shape, if_neg hneg, List.nil_append]
    obtain ⟨c0, t0, hct⟩ :=
      List.exists_cons_of_ne_nil (natToStr_spec ((roundHalfEven (q * 10000)).natAbs / 10000)).2.2
    obtain ⟨k, -, hk⟩ := (natToStr_spec ((roundHalfEven (q * 10000)).natAbs / 10000)).1 c0
      (by rw [hct]; exact List.mem_cons_self c0 t0)
    have hfmt2 : format4 q = c0 :: (t0 ++
        '.' :: pad4 ((roundHalfEven (q * 10000)).natAbs % 10000)) := by
      rw [hfmt, hct]
      rfl
    have hback : c0 :: (t0 ++ '.' :: pad4 ((roundHalfEven (q * 10000)).natAbs % 10000))
        = natToStr ((roundHalfEven (q * 10000)).natAbs / 10000) ++
          '.' :: pad4 ((roundHalfEven (q * 10000)).natAbs % 10000) := by
      rw [hct]
      rfl
    rw [hfmt2, pyFloat_cons_other _
        (by rw [hk]; exact (digitChar_spec k).2.2.1)
        (by rw [hk]; exact (digitChar_spec k).2.2.2.2.1)
        (hfmt2 ▸ hstrip),
      hback, pyFloatCore_shape _ _ hF, round4, hval, habs]

lemma roundHalfEven_close (x : ℚ) : |(roundHalfEven x : ℚ) - x| ≤ 1 / 2 := by
  have h1 : ((⌊x⌋ : ℤ) : ℚ) ≤ x := Int.floor_le x
  have h2 : x < (⌊x⌋ : ℚ) + 1 := Int.lt_floor_add_one x
  rw [roundHalfEven]
  split
  · rw [abs_sub_comm, abs_of_nonneg (by linarith)]
    linarith [show x - ((⌊x⌋ : ℤ) : ℚ) < 1 / 2 from by assumption]
  · split
    · rw [abs_of_nonneg (by push_cast; linarith)]
      push_cast
      linarith [show 1 / 2 < x - ((⌊x⌋ : ℤ) : ℚ) from by assumption]
    · have heq : x - ((⌊x⌋ : ℤ) : ℚ) = 1 / 2 := by
        have ha : ¬ (x - ((⌊x⌋ : ℤ) : ℚ) < 1 / 2) := by assumption
        have hb : ¬ (1 / 2 < x - ((⌊x⌋ : ℤ) : ℚ)) := by assumption
        linarith [not_lt.mp ha, not_lt.mp hb]
      split
      · rw [abs_sub_comm, abs_of_nonneg (by linarith)]
        linarith
      · rw [abs_of_nonneg (by push_cast; linarith)]
        push_cast
        linarith

lemma round4_close (q : ℚ) : |round4 q - q| ≤ 1 / 20000 := by
  have h := roundHalfEven_close (q * 10000)
  rw [round4, show (roundHalfEven (q * 10000) : ℚ) / 10000 - q
    = ((roundHalfEven (q * 10000) : ℚ) - q * 10000) / 10000 from by ring, abs_div,
    abs_of_pos (by norm_num : (0 : ℚ) < 10000)]
  rw [div_le_iff₀ (by norm_num : (0 : ℚ) < 10000)]
  linarith

lemma length_dropWhile_le' (p : Char → Bool) : ∀ l : Str, (l.dropWhile p).length ≤ l.length := by
  intro l
  induction l with
  | nil => simp
  | cons c t ih =>
    rw [List.dropWhile_cons]
    split
    · exact le_trans ih (by simp)
    · simp

lemma head_nonws_of_trimLeft {c : Char} {t : Str} (h : (c :: t).dropWhile wsp = c :: t) :
    wsp c = false := by
  by_cases hc : wsp c = true
  · rw [List.dropWhile_cons, if_pos hc] at h
    have h1 := congrArg List.length h
    have h2 := length_dropWhile_le' wsp t
    simp at h1
    omega
  · exact Bool.eq_false_iff.mpr hc

lemma hash_prefix_group (u : Str) :
    ("#".data).isPrefixOf ("# GROUP: ".data ++ u) = true := by simp [List.isPrefixOf]

lemma hash_prefix_criteria (u : Str) :
    ("#".data).isPrefixOf ("# Applied Criteria: ".data ++ u) = true := by simp [List.isPrefixOf]

lemma hash_prefix_dashes :
    ("#".data).isPrefixOf "#--------------------------------------".data = true := by decide

lemma hash_prefix_stats (u : Str) :
    ("#".data).isPrefixOf ("# STATS: ".data ++ u) = true := by simp [List.isPrefixOf]

lemma statsp_group (u : Str) :
    ("# STATS:".data).isPrefixOf ("# GROUP: ".data ++ u) = false := rfl

lemma statsp_criteria (u : Str) :
    ("# STATS:".data).isPrefixOf ("# Applied Criteria: ".data ++ u) = false := rfl

lemma statsp_dashes :
    ("# STATS:".data).isPrefixOf "#--------------------------------------".data = false := by
  decide

lemma statsp_self (u : Str) :
    ("# STATS:".data).isPrefixOf ("# STATS: ".data ++ u) = true := by simp [List.isPrefixOf]

lemma english_label_media (m : Str) (hM : 'M' ∉ m) :
    english_label (m ++ " Media".data) = m ++ " Mean".data := by
  rw [english_label, pyReplace_media m hM, pyReplace_self]

lemma english_label_std (m : Str) (hM : 'M' ∉ m) :
    english_label (m ++ " Std".data) = m ++ " Std".data := by
  have hnm : 'M' ∉ m ++ " Std".data := by
    intro hmem
    rcases List.mem_append.mp hmem with h | h
    · exact hM h
    · revert h
      decide
  rw [english_label, pyReplace_of_not_infixP " Mean".data (m ++ " Std".data)
    (not_infix_of_not_mem (by decide : 'M' ∈ " Media".data) hnm), pyReplace_self]

lemma pyJoin_cons_starts (sep p : Str) (ps : List Str) {c : Char} {t : Str}
    (hp : p = c :: t) : ∃ t', pyJoin sep (p :: ps) = c :: t' := by
  cases ps with
  | nil => exact ⟨t, by rw [pyJoin, hp]⟩
  | cons q r => exact ⟨t ++ sep ++ pyJoin sep (q :: r), by rw [pyJoin, hp]; simp⟩

lemma pyJoin_ends (sep : Str) : ∀ ps : List Str, ps ≠ [] →
    (∀ p ∈ ps, ∃ u d, p = u ++ [d] ∧ wsp d = false) →
    ∃ u d, pyJoin sep ps = u ++ [d] ∧ wsp d = false := by
  intro ps
  induction ps with
  | nil => intro h; exact absurd rfl h
  | cons p ps' ih =>
    intro _ hall
    cases ps' with
    | nil => simpa [pyJoin] using hall p (by simp)
    | cons q r =>
      obtain ⟨u, d, he, hd⟩ := ih (by simp) fun x hx => hall x (List.mem_cons_of_mem p hx)
      exact ⟨p ++ sep ++ u, d, by rw [pyJoin, he]; simp, hd⟩

lemma mem_pyJoin {c : Char} (sep : Str) : ∀ ps, c ∈ pyJoin sep ps →
    (∃ p ∈ ps, c ∈ p) ∨ c ∈ sep := by
  intro ps
  induction ps with
  | nil => intro h; simp [pyJoin] at h
  | cons p ps' ih =>
    intro h
    cases ps' with
    | nil => exact Or.inl ⟨p, by simp, by simpa [pyJoin] using h⟩
    | cons q r =>
      rw [pyJoin] at h
      rcases List.mem_append.mp h with h1 | h1
      · rcases List.mem_append.mp h1 with h2 | h2
        · exact Or.inl ⟨p, by simp, h2⟩
        · exact Or.inr h2
      · rcases ih h1 with ⟨p', hp', hc⟩ | hc
        · exact Or.inl ⟨p', List.mem_cons_of_mem p hp', hc⟩
        · exact Or.inr hc

lemma pyStrip_eq_self_hl (s : Str) (h1 : ∃ c t, s = c :: t ∧ wsp c = false)
    (h2 : ∃ u d, s = u ++ [d] ∧ wsp d = false) : pyStrip s = s := by
  obtain ⟨c, t, rfl, hc⟩ := h1
  obtain ⟨u, d, he, hd⟩ := h2
  rw [pyStrip, dropWhile_cons_false hc, he, List.reverse_append]
  simp only [List.reverse_cons, List.reverse_nil, List.nil_append, List.singleton_append]
  rw [dropWhile_cons_false hd]
  simp

lemma pyStrip_trailing_ws (x : Str) (h1 : ∃ c t, x = c :: t ∧ wsp c = false)
    (h2 : ∃ u d, x = u ++ [d] ∧ wsp d = false) : pyStrip (x ++ " ".data) = x := by
  obtain ⟨c, t, rfl, hc⟩ := h1
  obtain ⟨u, d, he, hd⟩ := h2
  have hsh : (c :: t) ++ " ".data = c :: (t ++ " ".data) := rfl
  rw [pyStrip, hsh, dropWhile_cons_false hc, ← hsh, List.reverse_append]
  simp only [List.reverse_cons, List.reverse_nil, List.nil_append, List.singleton_append]
  rw [List.dropWhile_cons, if_pos (by decide : wsp ' ' = true), ← List.reverse_cons, he,
    List.reverse_append]
  simp only [List.reverse_cons, List.reverse_nil, List.nil_append, List.singleton_append]
  rw [dropWhile_cons_false hd]
  simp

lemma metric_starts {m : Str} (hsafe : MetricSafe m) (x : Str) :
    ∃ c t, (m ++ x) = c :: t ∧ wsp c = false := by
  obtain ⟨c, t, hct⟩ := List.exists_cons_of_ne_nil hsafe.1
  refine ⟨c, t ++ x, by rw [hct]; rfl, ?_⟩
  apply head_nonws_of_trimLeft (t := t)
  rw [← hct]
  exact hsafe.2.1

lemma stats_line_of_eq (results : List (Str × Str)) :
    stats_line_of results = "# STATS: ".data ++ pyJoin " | ".data (stats_parts results) := rfl

lemma stats_parts_make (cols : List (Str × ℚ × ℚ)) (hsafe : ∀ c ∈ cols, MetricSafe c.1) :
    stats_parts (make_results cols) = (cols.map fun c =>
      [((c.1 ++ " Mean".data) ++ " = ".data ++ format4 c.2.1),
       ((c.1 ++ " Std".data) ++ " = ".data ++ format4 c.2.2)]).flatten := by
  induction cols with
  | nil => rfl
  | cons c cs ih =>
    have hM : 'M' ∉ c.1 := (hsafe c (by simp)).2.2.2.2.2.1
    have h1 : stats_parts (make_results (c :: cs))
        = stats_parts [(c.1 ++ " Media".data, format4 c.2.1),
            (c.1 ++ " Std".data, format4 c.2.2)] ++ stats_parts (make_results cs) := by
      rw [show make_results (c :: cs)
          = [(c.1 ++ " Media".data, format4 c.2.1), (c.1 ++ " Std".data, format4 c.2.2)]
            ++ make_results cs from rfl]
      rw [stats_parts, stats_parts, stats_parts, List.map_append]
    rw [h1, ih fun x hx => hsafe x (List.mem_cons_of_mem c hx)]
    simp only [stats_parts, List.map_cons, List.map_nil, List.flatten_cons]
    rw [english_label_media c.1 hM, english_label_std c.1 hM]

lemma format4_ends_digit (q : ℚ) : ∃ u d, format4 q = u ++ [d] ∧ wsp d = false := by
  refine ⟨(if roundHalfEven (q * 10000) < 0 then "-".data else []) ++
    (natToStr ((roundHalfEven (q * 10000)).natAbs / 10000) ++ '.' ::
      [digitChar ((roundHalfEven (q * 10000)).natAbs % 10000 / 1000 % 10),
       digitChar ((roundHalfEven (q * 10000)).natAbs % 10000 / 100 % 10),
       digitChar ((roundHalfEven (q * 10000)).natAbs % 10000 / 10 % 10)]),
    digitChar ((roundHalfEven (q * 10000)).natAbs % 10000 % 10), ?_, (digitChar_spec _).2.1⟩
  rw [format4_shape]
  simp [pad4, List.append_assoc]

lemma key_ends_mean (m : Str) : ∃ u d, m ++ " Mean".data = u ++ [d] ∧ wsp d = false :=
  ⟨m ++ " Mea".data, 'n', by simp [List.append_assoc], by decide⟩

lemma key_ends_std (m : Str) : ∃ u d, m ++ " Std".data = u ++ [d] ∧ wsp d = false :=
  ⟨m ++ " St".data, 'd', by simp [List.append_assoc], by decide⟩

lemma part_shape_ends (mkey : Str) (v : ℚ) :
    ∃ u d, (mkey ++ " = ".data ++ format4 v) = u ++ [d] ∧ wsp d = false := by
  obtain ⟨u, d, he, hd⟩ := format4_ends_digit v
  exact ⟨mkey ++ " = ".data ++ u, d, by rw [he]; simp [List.append_assoc], hd⟩

lemma parse_pair_key (mkey : Str) (v : ℚ) (hkey : '=' ∉ mkey)
    (h1 : ∃ c t, mkey = c :: t ∧ wsp c = false)
    (h2 : ∃ u d, mkey = u ++ [d] ∧ wsp d = false) :
    parse_pair (mkey ++ " = ".data ++ format4 v) = some (mkey, round4 v) := by
  have hshape : mkey ++ " = ".data ++ format4 v
      = (mkey ++ " ".data) ++ '=' :: (' ' :: format4 v) := by
    simp [List.append_assoc]
  have hkey' : '=' ∉ mkey ++ " ".data := by
    intro hmem
    rcases List.mem_append.mp hmem with h | h
    · exact hkey h
    · revert h
      decide
  rw [hshape, parse_pair, splitFirstEq_append _ _ hkey']
  have hv : pyStrip (' ' :: format4 v) = format4 v := by
    rw [pyStrip_ws_cons _ (by decide), pyStrip_eq_self_of_all _ (format4_no_ws v)]
  simp only [hv, pyFloat_format4, pyStrip_trailing_ws mkey h1 h2]

lemma parse_parts (cols : List (Str × ℚ × ℚ)) (hsafe : ∀ c ∈ cols, MetricSafe c.1) :
    ((cols.map fun c =>
      [((c.1 ++ " Mean".data) ++ " = ".data ++ format4 c.2.1),
       ((c.1 ++ " Std".data) ++ " = ".data ++ format4 c.2.2)]).flatten).filterMap parse_pair
    = (cols.map fun c =>
      [(c.1 ++ " Mean".data, round4 c.2.1), (c.1 ++ " Std".data, round4 c.2.2)]).flatten := by
  induction cols with
  | nil => rfl
  | cons c cs ih =>
    have hs := hsafe c (by simp)
    have hkm : '=' ∉ c.1 ++ " Mean".data := by
      intro hmem
      rcases List.mem_append.mp hmem with h | h
      · exact hs.2.2.2.1 h
      · revert h
        decide
    have hks : '=' ∉ c.1 ++ " Std".data := by
      intro hmem
      rcases List.mem_append.mp hmem with h | h
      · exact hs.2.2.2.1 h
      · revert h
        decide
    simp only [List.map_cons, List.flatten_cons, List.cons_append, List.nil_append,
      List.filterMap_cons,
      parse_pair_key (c.1 ++ " Mean".data) c.2.1 hkm (metric_starts hs _) (key_ends_mean c.1),
      parse_pair_key (c.1 ++ " Std".data) c.2.2 hks (metric_starts hs _) (key_ends_std c.1)]
    rw [ih fun x hx => hsafe x (List.mem_cons_of_mem c hx)]

lemma format4_avoid (q : ℚ) : ∀ c ∈ format4 q, c ≠ '|' ∧ c ≠ '#' := by
  intro c hc
  rcases format4_chars q c hc with ⟨k, hk⟩ | h | h
  · rw [hk]
    exact ⟨(digitChar_spec k).2.2.2.2.2.2.1, (digitChar_spec k).2.2.2.2.2.2.2.1⟩
  · rw [h]
    decide
  · rw [h]
    decide

lemma part_avoid {m sfx : Str} (h1 : '|' ∉ m ∧ '#' ∉ m) (h2 : '|' ∉ sfx ∧ '#' ∉ sfx) (v : ℚ) :
    '|' ∉ ((m ++ sfx) ++ " = ".data ++ format4 v) ∧
    '#' ∉ ((m ++ sfx) ++ " = ".data ++ format4 v) := by
  constructor
  · intro hmem
    rcases List.mem_append.mp hmem with hx | hx
    · rcases List.mem_append.mp hx with hy | hy
      · rcases List.mem_append.mp hy with hz | hz
        · exact h1.1 hz
        · exact h2.1 hz
      · revert hy
        decide
    · exact (format4_avoid v '|' hx).1 rfl
  · intro hmem
    rcases List.mem_append.mp hmem with hx | hx
    · rcases List.mem_append.mp hx with hy | hy
      · rcases List.mem_append.mp hy with hz | hz
        · exact h1.2 hz
        · exact h2.2 hz
      · revert hy
        decide
    · exact (format4_avoid v '#' hx).2 rfl

lemma mean_ne_std (a b : Str) : a ++ " Mean".data ≠ b ++ " Std".data := by
  intro h
  have e1 : a ++ " Mean".data = (a ++ " Mea".data) ++ ['n'] := by simp [List.append_assoc]
  have e2 : b ++ " Std".data = (b ++ " St".data) ++ ['d'] := by simp [List.append_assoc]
  rw [e1, e2] at h
  have h2 := congrArg List.getLast? h
  rw [List.getLast?_concat, List.getLast?_concat] at h2
  exact absurd (Option.some.inj h2) (by decide)

lemma assocFind_eq_none {α β : Type} [DecidableEq α] (k : α) :
    ∀ l : List (α × β), k ∉ l.map Prod.fst → assocFind k l = none := by
  intro l
  induction l with
  | nil => intro _; rfl
  | cons p rest ih =>
    intro h
    obtain ⟨k', v⟩ := p
    rw [assocFind, if_neg fun hh => h (by simp [← hh]), ih fun hh => h (by simp [hh])]

lemma assocFind_append {α β : Type} [DecidableEq α] (k : α) (l₁ l₂ : List (α × β)) :
    assocFind k (l₁ ++ l₂) = match assocFind k l₁ with
      | some v => some v
      | none => assocFind k l₂ := by
  induction l₁ with
  | nil => rfl
  | cons p rest ih =>
    obtain ⟨k', v⟩ := p
    by_cases hk : k' = k
    · rw [List.cons_append, assocFind, if_pos hk, assocFind, if_pos hk]
    · rw [List.cons_append, assocFind, if_neg hk, assocFind, if_neg hk, ih]

lemma dictGet_append (x l : List (Str × ℚ)) (k : Str) (hk : k ∉ x.map Prod.fst) :
    dictGet (x ++ l) k = dictGet l k := by
  rw [dictGet, List.reverse_append, assocFind_append]
  have hx : assocFind k x.reverse = none := by
    apply assocFind_eq_none
    intro hmem
    exact hk (by simpa [List.map_reverse] using hmem)
  cases hfind : assocFind k l.reverse with
  | some v =>
    rw [dictGet, hfind]
  | none =>
    rw [dictGet, hfind, hx]

lemma dictGet_block_fst (kM kS : Str) (a b : ℚ) (l : List (Str × ℚ)) (hMS : kM ≠ kS)
    (hlM : kM ∉ l.map Prod.fst) :
    dictGet ([(kM, a), (kS, b)] ++ l) kM = some a := by
  rw [dictGet, List.reverse_append, assocFind_append]
  have hx : assocFind kM l.reverse = none := by
    apply assocFind_eq_none
    intro hmem
    exact hlM (by simpa [List.map_reverse] using hmem)
  rw [hx]
  show assocFind kM [(kS, b), (kM, a)] = some a
  rw [assocFind, if_neg fun h => hMS h.symm, assocFind, if_pos rfl]

lemma dictGet_block_snd (kM kS : Str) (a b : ℚ) (l : List (Str × ℚ))
    (hlS : kS ∉ l.map Prod.fst) :
    dictGet ([(kM, a), (kS, b)] ++ l) kS = some b := by
  rw [dictGet, List.reverse_append, assocFind_append]
  have hx : assocFind kS l.reverse = none := by
    apply assocFind_eq_none
    intro hmem
    exact hlS (by simpa [List.map_reverse] using hmem)
  rw [hx]
  show assocFind kS [(kS, b), (kM, a)] = some b
  rw [assocFind, if_pos rfl]

lemma key_mem_pairs {k : Str} (cols : List (Str × ℚ × ℚ))
    (h : k ∈ ((cols.map fun c => [(c.1 ++ " Mean".data, round4 c.2.1),
      (c.1 ++ " Std".data, round4 c.2.2)]).flatten).map Prod.fst) :
    ∃ c ∈ cols, k = c.1 ++ " Mean".data ∨ k = c.1 ++ " Std".data := by
  rw [List.map_flatten, List.map_map] at h
  rw [List.mem_flatten] at h
  obtain ⟨l, hl, hkl⟩ := h
  rw [List.mem_map] at hl
  obtain ⟨c, hc, rfl⟩ := hl
  simp only [Function.comp, List.map_cons, List.map_nil, List.mem_cons, List.not_mem_nil,
    or_false] at hkl
  exact ⟨c, hc, hkl⟩

lemma filterMap_congr' {α β : Type} (l : List α) {f g : α → Option β}
    (h : ∀ x ∈ l, f x = g x) : l.filterMap f = l.filterMap g := by
  induction l with
  | nil => rfl
  | cons a t ih =>
    rw [List.filterMap_cons, List.filterMap_cons, h a (by simp),
      ih fun x hx => h x (by simp [hx])]

lemma collect_pairs (cols : List (Str × ℚ × ℚ)) (hnodup : (cols.map fun c => c.1).Nodup) :
    collect_metric_stats
      ((cols.map fun c => [(c.1 ++ " Mean".data, round4 c.2.1),
        (c.1 ++ " Std".data, round4 c.2.2)]).flatten)
      (cols.map fun c => c.1)
    = cols.map fun c => (c.1, round4 c.2.1, round4 c.2.2) := by
  induction cols with
  | nil => rfl
  | cons c cs ih =>
    rw [List.map_cons, List.nodup_cons] at hnodup
    obtain ⟨hc1, hnd⟩ := hnodup
    have hknotin : (c.1 ++ " Mean".data) ∉ ((cs.map fun c =>
        [(c.1 ++ " Mean".data, round4 c.2.1), (c.1 ++ " Std".data, round4 c.2.2)]).flatten).map
          Prod.fst := by
      intro hmem
      obtain ⟨c', hc', hor⟩ := key_mem_pairs cs hmem
      rcases hor with h | h
      · exact hc1 (by rw [List.append_cancel_right h]; exact List.mem_map_of_mem _ hc')
      · exact mean_ne_std c.1 c'.1 h
    have hknotinS : (c.1 ++ " Std".data) ∉ ((cs.map fun c =>
        [(c.1 ++ " Mean".data, round4 c.2.1), (c.1 ++ " Std".data, round4 c.2.2)]).flatten).map
          Prod.fst := by
      intro hmem
      obtain ⟨c', hc', hor⟩ := key_mem_pairs cs hmem
      rcases hor with h | h
      · exact mean_ne_std c'.1 c.1 h.symm
      · exact hc1 (by rw [List.append_cancel_right h]; exact List.mem_map_of_mem _ hc')
    have hshape : ((c :: cs).map fun c => [(c.1 ++ " Mean".data, round4 c.2.1),
        (c.1 ++ " Std".data, round4 c.2.2)]).flatten
        = [(c.1 ++ " Mean".data, round4 c.2.1), (c.1 ++ " Std".data, round4 c.2.2)] ++
          (cs.map fun c => [(c.1 ++ " Mean".data, round4 c.2.1),
            (c.1 ++ " Std".data, round4 c.2.2)]).flatten := by
      simp
    rw [collect_metric_stats, hshape,
      show ((c :: cs).map fun c => c.1) = c.1 :: cs.map fun c => c.1 from rfl,
      List.filterMap_cons,
      dictGet_block_fst _ _ _ _ _ (mean_ne_std c.1 c.1) hknotin,
      dictGet_block_snd _ _ _ _ _ hknotinS]
    have htail : (cs.map fun c => c.1).filterMap (fun m =>
        match dictGet ([(c.1 ++ " Mean".data, round4 c.2.1),
            (c.1 ++ " Std".data, round4 c.2.2)] ++
            (cs.map fun c => [(c.1 ++ " Mean".data, round4 c.2.1),
              (c.1 ++ " Std".data, round4 c.2.2)]).flatten) (m ++ " Mean".data),
          dictGet ([(c.1 ++ " Mean".data, round4 c.2.1),
            (c.1 ++ " Std".data, round4 c.2.2)] ++
            (cs.map fun c => [(c.1 ++ " Mean".data, round4 c.2.1),
              (c.1 ++ " Std".data, round4 c.2.2)]).flatten) (m ++ " Std".data) with
        | some a, some b => some (m, a, b)
        | _, _ => none)
        = cs.map fun c => (c.1, round4 c.2.1, round4 c.2.2) := by
      rw [filterMap_congr' (cs.map fun c => c.1) (g := fun m =>
        match dictGet ((cs.map fun c => [(c.1 ++ " Mean".data, round4 c.2.1),
            (c.1 ++ " Std".data, round4 c.2.2)]).flatten) (m ++ " Mean".data),
          dictGet ((cs.map fun c => [(c.1 ++ " Mean".data, round4 c.2.1),
            (c.1 ++ " Std".data, round4 c.2.2)]).flatten) (m ++ " Std".data) with
        | some a, some b => some (m, a, b)
        | _, _ => none) ?_]
      · exact ih hnd
      · intro m hm
        have hmne : m ≠ c.1 := by
          intro hh
          rw [hh] at hm
          exact hc1 hm
        have h1 : (m ++ " Mean".data) ∉
            ([(c.1 ++ " Mean".data, round4 c.2.1),
              (c.1 ++ " Std".data, round4 c.2.2)] : List (Str × ℚ)).map Prod.fst := by
          intro hmem
          simp only [List.map_cons, List.map_nil, List.mem_cons, List.not_mem_nil,
            or_false] at hmem
          rcases hmem with h | h
          · exact hmne (List.append_cancel_right h)
          · exact mean_ne_std m c.1 h
        have h2 : (m ++ " Std".data) ∉
            ([(c.1 ++ " Mean".data, round4 c.2.1),
              (c.1 ++ " Std".data, round4 c.2.2)] : List (Str × ℚ)).map Prod.fst := by
          intro hmem
          simp only [List.map_cons, List.map_nil, List.mem_cons, List.not_mem_nil,
            or_false] at hmem
          rcases hmem with h | h
          · exact mean_ne_std c.1 m h.symm
          · exact hmne (List.append_cancel_right h)
        rw [dictGet_append _ _ _ h1, dictGet_append _ _ _ h2]
    rw [htail, List.map_cons]

lemma parse_stats_pairs_make (cols : List (Str × ℚ × ℚ)) (hne : cols ≠ [])
    (hsafe : ∀ c ∈ cols, MetricSafe c.1) :
    parse_stats_pairs (stats_line_of (make_results cols))
      = (cols.map fun c => [(c.1 ++ " Mean".data, round4 c.2.1),
          (c.1 ++ " Std".data, round4 c.2.2)]).flatten := by
  have hpartseq := stats_parts_make cols hsafe
  have hpartsne : stats_parts (make_results cols) ≠ [] := by
    rw [hpartseq]
    cases cols with
    | nil => exact absurd rfl hne
    | cons c cs => simp
  have hpart_chars : ∀ p ∈ stats_parts (make_results cols), '|' ∉ p ∧ '#' ∉ p := by
    intro p hp
    rw [hpartseq, List.mem_flatten] at hp
    obtain ⟨l, hl, hpl⟩ := hp
    rw [List.mem_map] at hl
    obtain ⟨c, hc, rfl⟩ := hl
    have hsc := hsafe c hc
    simp only [List.mem_cons, List.not_mem_nil, or_false] at hpl
    rcases hpl with rfl | rfl
    · exact part_avoid ⟨hsc.2.2.1, hsc.2.2.2.2.1⟩ ⟨by decide, by decide⟩ c.2.1
    · exact part_avoid ⟨hsc.2.2.1, hsc.2.2.2.2.1⟩ ⟨by decide, by decide⟩ c.2.2
  have hbody_ends : ∃ u d, pyJoin " | ".data (stats_parts (make_results cols)) = u ++ [d] ∧
      wsp d = false := by
    apply pyJoin_ends _ _ hpartsne
    intro p hp
    rw [hpartseq, List.mem_flatten] at hp
    obtain ⟨l, hl, hpl⟩ := hp
    rw [List.mem_map] at hl
    obtain ⟨c, hc, rfl⟩ := hl
    simp only [List.mem_cons, List.not_mem_nil, or_false] at hpl
    rcases hpl with rfl | rfl
    · exact part_shape_ends _ _
    · exact part_shape_ends _ _
  have hbody_starts : ∃ ch t, pyJoin " | ".data (stats_parts (make_results cols)) = ch :: t ∧
      wsp ch = false := by
    obtain ⟨c0, cs, rfl⟩ := List.exists_cons_of_ne_nil hne
    have hs0 := hsafe c0 (by simp)
    rw [hpartseq]
    simp only [List.map_cons, List.flatten_cons, List.cons_append]
    obtain ⟨ch, tt, hct, hch⟩ :=
      metric_starts hs0 (" Mean".data ++ (" = ".data ++ format4 c0.2.1))
    have hpm : (c0.1 ++ " Mean".data) ++ " = ".data ++ format4 c0.2.1 = ch :: tt := by
      rw [← hct]
      simp [List.append_assoc]
    obtain ⟨t', ht'⟩ := pyJoin_cons_starts " | ".data _ _ hpm
    exact ⟨ch, t', ht', hch⟩
  obtain ⟨bu, bd, hbe, hbd⟩ := hbody_ends
  obtain ⟨bc, bt, hbs, hbc⟩ := hbody_starts
  have hline_strip : pyStrip ("# STATS: ".data ++
      pyJoin " | ".data (stats_parts (make_results cols)))
      = "# STATS: ".data ++ pyJoin " | ".data (stats_parts (make_results cols)) := by
    apply pyStrip_eq_self_hl
    · exact ⟨'#', " STATS: ".data ++ pyJoin " | ".data (stats_parts (make_results cols)),
        rfl, by decide⟩
    · exact ⟨"# STATS: ".data ++ bu, bd, by rw [hbe]; simp [List.append_assoc], hbd⟩
  have hnohash : '#' ∉ (' ' :: pyJoin " | ".data (stats_parts (make_results cols))) := by
    intro hmem
    rcases List.mem_cons.mp hmem with h | h
    · exact absurd h.symm (by decide)
    · rcases mem_pyJoin " | ".data _ h with ⟨p, hp, hcp⟩ | hcp
      · exact (hpart_chars p hp).2 hcp
      · revert hcp
        decide
  have hreplace : pyReplace "# STATS:".data []
      ("# STATS: ".data ++ pyJoin " | ".data (stats_parts (make_results cols)))
      = ' ' :: pyJoin " | ".data (stats_parts (make_results cols)) := by
    have hsh : "# STATS: ".data ++ pyJoin " | ".data (stats_parts (make_results cols))
        = "# STATS:".data ++
          (' ' :: pyJoin " | ".data (stats_parts (make_results cols))) := by simp
    rw [hsh, pyReplace_strip_prefixP _ _ _ (by decide)
      (not_infix_of_not_mem (by decide : '#' ∈ "# STATS:".data) hnohash)]
    rfl
  have hstrip2 : pyStrip (' ' :: pyJoin " | ".data (stats_parts (make_results cols)))
      = pyJoin " | ".data (stats_parts (make_results cols)) := by
    rw [pyStrip_ws_cons _ (by decide)]
    exact pyStrip_eq_self_hl _ ⟨bc, bt, hbs, hbc⟩ ⟨bu, bd, hbe, hbd⟩
  rw [parse_stats_pairs, stats_line_of_eq, hline_strip, hreplace, hstrip2,
    pySplit_pipe_join _ hpartsne fun p hp => (hpart_chars p hp).1, hpartseq]
  exact parse_parts cols hsafe

lemma extract_step_skip (metrics : List Str) (line : Str) (rest : List Str)
    (h1 : ("#".data).isPrefixOf line = true)
    (h2 : ("# STATS:".data).isPrefixOf line = false) :
    extract_stats_from_csv metrics (line :: rest) = extract_stats_from_csv metrics rest := by
  rw [extract_stats_from_csv, h1, h2]
  simp

lemma extract_step_stats (metrics : List Str) (line : Str) (rest : List Str)
    (h0 : ("#".data).isPrefixOf line = true)
    (h1 : ("# STATS:".data).isPrefixOf line = true) :
    extract_stats_from_csv metrics (line :: rest)
      = collect_metric_stats (parse_stats_pairs line) metrics := by
  rw [extract_stats_from_csv, h0, h1]
  simp

lemma extract_on_header (metrics : List Str) (name : Str) (cfg : SearchConfig)
    (results : List (Str × Str)) (rest : List Str) :
    extract_stats_from_csv metrics (make_header_lines name cfg results ++ rest)
      = collect_metric_stats (parse_stats_pairs (stats_line_of results)) metrics := by
  have h4 : stats_line_of results = "# STATS: ".data ++
      pyJoin " | ".data (stats_parts results) := stats_line_of_eq results
  show extract_stats_from_csv metrics
      (("# GROUP: ".data ++ name) ::
        ("# Applied Criteria: ".data ++ criteria_str cfg) ::
        "#--------------------------------------".data ::
        stats_line_of results ::
        "#--------------------------------------".data :: rest)
    = collect_metric_stats (parse_stats_pairs (stats_line_of results)) metrics
  rw [extract_step_skip _ _ _ (hash_prefix_group name) (statsp_group name),
    extract_step_skip _ _ _ (hash_prefix_criteria (criteria_str cfg))
      (statsp_criteria (criteria_str cfg)),
    extract_step_skip _ _ _ hash_prefix_dashes statsp_dashes,
    extract_step_stats _ _ _ (by rw [h4]; exact hash_prefix_stats _)
      (by rw [h4]; exact statsp_self _)]

/-- C5: statistics-header round-trip.  For every group (name and criteria),
every column set with its computed mean/std values, and any table content
below the header, writing the header (`analyze_and_combine_csvs` step 7)
and reading it back with `extract_stats_from_csv` returns, per column,
exactly the 4-decimal serialization of the written mean/std — values equal
to the written ones at 4 fractional digits (within half a unit of the
fourth decimal place). -/
theorem stats_header_roundtrip (name : Str) (cfg : SearchConfig)
    (cols : List (Str × ℚ × ℚ)) (rest : List Str)
    (hne : cols ≠ [])
    (hsafe : ∀ c ∈ cols, MetricSafe c.1)
    (hnodup : (cols.map fun c => c.1).Nodup) :
    extract_stats_from_csv (cols.map fun c => c.1)
        (make_header_lines name cfg (make_results cols) ++ rest)
      = cols.map (fun c => (c.1, round4 c.2.1, round4 c.2.2)) ∧
    ∀ c ∈ cols, |round4 c.2.1 - c.2.1| ≤ 1 / 20000 ∧ |round4 c.2.2 - c.2.2| ≤ 1 / 20000 := by
  constructor
  · rw [extract_on_header, parse_stats_pairs_make cols hne hsafe, collect_pairs cols hnodup]
  · intro c _
    exact ⟨round4_close c.2.1, round4_close c.2.2⟩

/-- Witness for C5 at the spec's concrete example: column `[EELEC]`,
mean 12.3456, std 0.7891. -/
theorem stats_header_roundtrip_witness :
    (∀ c ∈ [(("[EELEC]".data : Str), (123456 / 10000 : ℚ), (7891 / 10000 : ℚ))],
      MetricSafe c.1) ∧
    extract_stats_from_csv
        ([(("[EELEC]".data : Str), (123456 / 10000 : ℚ), (7891 / 10000 : ℚ))].map fun c => c.1)
        (make_header_lines "G1".data ⟨[], [], []⟩
          (make_results
            [(("[EELEC]".data : Str), (123456 / 10000 : ℚ), (7891 / 10000 : ℚ))]) ++ [])
      = [(("[EELEC]".data : Str), (123456 / 10000 : ℚ), (7891 / 10000 : ℚ))].map
          (fun c => (c.1, round4 c.2.1, round4 c.2.2)) :=
  ⟨by decide,
   (stats_header_roundtrip "G1".data ⟨[], [], []⟩
      [(("[EELEC]".data : Str), (123456 / 10000 : ℚ), (7891 / 10000 : ℚ))] []
      (List.cons_ne_nil _ _) (by decide) (by decide)).1⟩

lemma map_id_of {α : Type} {f : α → α} : ∀ l : List α, (∀ x ∈ l, f x = x) → l.map f = l := by
  intro l
  induction l with
  | nil => intro _; rfl
  | cons a t ih =>
    intro h
    rw [List.map_cons, h a (by simp), ih fun x hx => h x (by simp [hx])]

/-- C3 counterexample: the per-file converted tables' metadata line
(written by `csv.writer` in `analyze_filtered_csvs`) is joined by commas
and contains no pipe at all, contradicting the claim that both kinds of
tables use the pipe delimiter. -/
theorem prestep2_metadata_line_comma_joined :
    csvWriteRow (prestep2_metadata_row
        [("[EELEC] Mean".data, "-11.0000".data), ("[EELEC] Std".data, "1.0000".data)])
      = "# METADATA:,[EELEC] Mean = -11.0000,[EELEC] Std = 1.0000".data ∧
    '|' ∉ csvWriteRow (prestep2_metadata_row
        [("[EELEC] Mean".data, "-11.0000".data), ("[EELEC] Std".data, "1.0000".data)]) ∧
    ',' ∈ csvWriteRow (prestep2_metadata_row
        [("[EELEC] Mean".data, "-11.0000".data), ("[EELEC] Std".data, "1.0000".data)]) := by
  decide

/-- C3 (amended): the delimiter of the single metadata line differs
between the two writers.  The grouped aggregated tables' `# STATS:` line
is pipe-joined — splitting its body on `" | "` recovers exactly the
`label = value` parts — while the per-file converted tables' metadata line
is a csv row: its serialization is the cells joined by commas, and
splitting it on `","` recovers exactly the cells. -/
theorem metadata_delimiters (results : List (Str × Str))
    (hne : results ≠ [])
    (hagg : ∀ p ∈ stats_parts results, '|' ∉ p)
    (hcsv : ∀ cell ∈ prestep2_metadata_row results,
      (cell.any fun c => c == ',' || c == '"' || c == '\n' || c == '\r') = false) :
    pySplit " | ".data (List.drop ("# STATS: ".data).length (stats_line_of results))
      = stats_parts results ∧
    csvWriteRow (prestep2_metadata_row results)
      = pyJoin ",".data (prestep2_metadata_row results) ∧
    pySplit ",".data (csvWriteRow (prestep2_metadata_row results))
      = prestep2_metadata_row results := by
  have hparts_ne : stats_parts results ≠ [] := by
    cases results with
    | nil => exact absurd rfl hne
    | cons r rs => simp [stats_parts]
  have hdrop : List.drop ("# STATS: ".data).length (stats_line_of results)
      = pyJoin " | ".data (stats_parts results) := by
    rw [stats_line_of_eq, List.drop_left]
  have hrow : csvWriteRow (prestep2_metadata_row results)
      = pyJoin ",".data (prestep2_metadata_row results) := by
    rw [csvWriteRow, map_id_of (prestep2_metadata_row results) fun cell hc => by
      rw [csvQuoteCell, if_neg (by rw [hcsv cell hc]; simp)]]
  have hcommafree : ∀ p ∈ prestep2_metadata_row results, ',' ∉ p := by
    intro p hp hmem
    have h := hcsv p hp
    rw [List.any_eq_false] at h
    have h2 := h ',' hmem
    simp at h2
  refine ⟨?_, hrow, ?_⟩
  · rw [hdrop, pySplit_pipe_join _ hparts_ne hagg]
  · rw [hrow, pySplit_comma_join _ (by simp [prestep2_metadata_row]) hcommafree]

/-- Witness for C3 (amended) at concrete EELEC mean/std results. -/
theorem metadata_delimiters_witness :
    (∀ p ∈ stats_parts
        [("[EELEC] Mean".data, "-11.0000".data), ("[EELEC] Std".data, "1.0000".data)],
      '|' ∉ p) ∧
    pySplit ",".data (csvWriteRow (prestep2_metadata_row
        [("[EELEC] Mean".data, "-11.0000".data), ("[EELEC] Std".data, "1.0000".data)]))
      = prestep2_metadata_row
        [("[EELEC] Mean".data, "-11.0000".data), ("[EELEC] Std".data, "1.0000".data)] :=
  ⟨by decide,
   (metadata_delimiters
      [("[EELEC] Mean".data, "-11.0000".data), ("[EELEC] Std".data, "1.0000".data)]
      (List.cons_ne_nil _ _) (by decide) (by decide)).2.2⟩

lemma roundHalfEven_intCast (n : ℤ) : roundHalfEven ((n : ℤ) : ℚ) = n := by
  rw [roundHalfEven]
  norm_num [Int.floor_intCast]

lemma c2_combined_eelec :
    (combineMatching c2Files c2Config).map (fun r => r.eelec) = [-10, -12, -11] := rfl

lemma c2_combined_evdw :
    (combineMatching c2Files c2Config).map (fun r => r.evdw) = [-2, -3, -5/2] := rfl

lemma c2_eelec_mean : seriesMean [(-10 : ℚ), -12, -11] = -11 := by
  norm_num [seriesMean, List.sum_cons, List.sum_nil]

lemma c2_eelec_var : sampleVar [(-10 : ℚ), -12, -11] = 1 := by
  norm_num [sampleVar, c2_eelec_mean, List.map_cons, List.map_nil, List.sum_cons,
    List.sum_nil]

/-- C2 counterexample: over the scenario's three concatenated EELEC rows
−10, −12, −11 the aggregator's statistic (pandas `std()`, sample standard
deviation with the n−1 divisor) is exactly 1.0, not approximately 0.8165
(which is the population standard deviation, √(2/3), of the same rows). -/
theorem c2_eelec_std_not_0_8165 :
    sampleVar ((combineMatching c2Files c2Config).map fun r => r.eelec) = 1 ∧
    |Real.sqrt ((sampleVar ((combineMatching c2Files c2Config).map fun r => r.eelec) : ℚ) : ℝ)
      - 0.8165| > 1 / 10 := by
  rw [c2_combined_eelec, c2_eelec_var]
  refine ⟨rfl, ?_⟩
  rw [Rat.cast_one, Real.sqrt_one, show |(1 : ℝ) - 0.8165| = 0.1835 by
    rw [show (1 : ℝ) - 0.8165 = 0.1835 by norm_num, abs_of_pos (by norm_num)]]
  norm_num

/-- C2 (amended): over the scenario's two converted tables and
configuration, the aggregated table has 3 data rows, EELEC mean −11.0
(serialized `-11.0000`), EELEC sample standard deviation exactly 1.0
(serialized `1.0000`, not ≈0.8165), and EVDW mean −2.5 in its statistics
header. -/
theorem c2_scenario_amended :
    (combineMatching c2Files c2Config).length = 3 ∧
    seriesMean ((combineMatching c2Files c2Config).map fun r => r.eelec) = -11 ∧
    sampleVar ((combineMatching c2Files c2Config).map fun r => r.eelec) = 1 ∧
    Real.sqrt ((sampleVar ((combineMatching c2Files c2Config).map fun r => r.eelec) : ℚ) : ℝ)
      = 1 ∧
    seriesMean ((combineMatching c2Files c2Config).map fun r => r.evdw) = -5/2 ∧
    format4 (seriesMean ((combineMatching c2Files c2Config).map fun r => r.eelec))
      = "-11.0000".data ∧
    format4 (1 : ℚ) = "1.0000".data := by
  have hfmt11 : format4 (-11 : ℚ) = "-11.0000".data := by
    have hr : roundHalfEven ((-11 : ℚ) * 10000) = -110000 := by
      rw [show ((-11 : ℚ) * 10000) = (((-110000 : ℤ) : ℤ) : ℚ) by norm_num]
      exact roundHalfEven_intCast _
    rw [format4_shape, hr]
    decide
  have hfmt1 : format4 (1 : ℚ) = "1.0000".data := by
    have hr : roundHalfEven ((1 : ℚ) * 10000) = 10000 := by
      rw [show ((1 : ℚ) * 10000) = (((10000 : ℤ) : ℤ) : ℚ) by norm_num]
      exact roundHalfEven_intCast _
    rw [format4_shape, hr]
    decide
  rw [c2_combined_eelec, c2_combined_evdw, c2_eelec_mean, c2_eelec_var]
  refine ⟨rfl, rfl, rfl, ?_, ?_, by rw [hfmt11], hfmt1⟩
  · rw [Rat.cast_one, Real.sqrt_one]
  · norm_num [seriesMean, List.sum_cons, List.sum_nil]

lemma tmpName_ne (path : Str) : tmpName path ≠ path := by
  intro h
  have hl := congrArg List.length h
  rw [tmpName, List.length_append] at hl
  simp at hl

lemma removeFile_lookup_self (fs : FS) (p : Str) :
    assocFind p (removeFile fs p) = none := by
  induction fs with
  | nil => rfl
  | cons e rest ih =>
    obtain ⟨k, v⟩ := e
    by_cases hk : k = p
    · rw [removeFile, List.filter_cons]
      simp only [hk, beq_self_eq_true, Bool.not_true, if_neg]
      exact ih
    · rw [removeFile, List.filter_cons]
      have hb : (!((k, v).1 == p)) = true := by
        simp [hk]
      rw [if_pos hb, assocFind, if_neg hk]
      exact ih

lemma removeFile_lookup_ne (fs : FS) (p q : Str) (h : q ≠ p) :
    assocFind q (removeFile fs p) = assocFind q fs := by
  induction fs with
  | nil => rfl
  | cons e rest ih =>
    obtain ⟨k, v⟩ := e
    rw [removeFile, List.filter_cons]
    by_cases hk : k = p
    · have hb : (!((k, v).1 == p)) = false := by simp [hk]
      rw [hb, if_neg (by simp), assocFind, if_neg fun hq => h (hq.symm.trans hk)]
      exact ih
    · have hb : (!((k, v).1 == p)) = true := by simp [hk]
      rw [hb, if_pos rfl, assocFind, assocFind]
      by_cases hkq : k = q
      · rw [if_pos hkq, if_pos hkq]
      · rw [if_neg hkq, if_neg hkq]
        exact ih

/-- C6: the header insertion writes the combined content to a temporary
file and installs it only by `os.replace`: interrupting after any partial
write of the temporary file leaves the original file's content intact,
while the completed sequence installs header plus original rows at the
original path and leaves no temporary file behind. -/
theorem insert_header_atomic (fs : FS) (path header data : Str)
    (hread : lookupFile fs path = some data) :
    (∀ c : Str,
      lookupFile (applyOp fs (FsOp.writeFile (tmpName path) c)) path = some data) ∧
    lookupFile (runOps fs (insert_header_ops path header data)) path
      = some (header ++ data) ∧
    lookupFile (runOps fs (insert_header_ops path header data)) (tmpName path)
      = none := by
  have hne := tmpName_ne path
  have h2 : assocFind (tmpName path) ((tmpName path, header ++ data) :: fs)
      = some (header ++ data) := by
    rw [assocFind, if_pos rfl]
  have h3 : runOps fs (insert_header_ops path header data)
      = (path, header ++ data) ::
        removeFile (removeFile ((tmpName path, header ++ data) :: fs) (tmpName path))
          path := by
    rw [runOps, insert_header_ops, List.foldl_cons, List.foldl_cons, List.foldl_nil]
    show applyOp ((tmpName path, header ++ data) :: fs)
        (FsOp.replaceFile (tmpName path) path) = _
    rw [applyOp, h2]
  refine ⟨?_, ?_, ?_⟩
  · intro c
    rw [lookupFile] at hread
    rw [applyOp, lookupFile, assocFind, if_neg hne, hread]
  · rw [h3, lookupFile, assocFind, if_pos rfl]
  · rw [h3, lookupFile, assocFind, if_neg fun hq => hne hq.symm,
      removeFile_lookup_ne _ _ _ hne, removeFile_lookup_self]

theorem insert_header_atomic_witness :
    (∀ c : Str,
      lookupFile (applyOp [("a.csv".data, "x".data)]
        (FsOp.writeFile (tmpName "a.csv".data) c)) "a.csv".data = some "x".data) ∧
    lookupFile (runOps [("a.csv".data, "x".data)]
        (insert_header_ops "a.csv".data "# h\n".data "x".data)) "a.csv".data
      = some ("# h\n".data ++ "x".data) ∧
    lookupFile (runOps [("a.csv".data, "x".data)]
        (insert_header_ops "a.csv".data "# h\n".data "x".data))
        (tmpName "a.csv".data) = none :=
  insert_header_atomic [("a.csv".data, "x".data)] "a.csv".data "# h\n".data "x".data
    (by decide)

/-- C7: a configuration matching zero files is skipped: its iteration
produces no `generated_files` entry and writes no output file, and the
remaining configurations are processed exactly as if it were absent. -/
theorem zero_match_config_skipped (files : List (Str × List EnergyRow))
    (cfg : NamedConfig) (rest : List NamedConfig)
    (h : ∀ f ∈ files, matches_boolean_query f.1 cfg.query = false) :
    processOne files cfg = none ∧
    analyze_and_combine_csvs files (cfg :: rest)
      = analyze_and_combine_csvs files rest := by
  have hfil : files.filter (fun f => matches_boolean_query f.1 cfg.query) = [] := by
    rw [List.filter_eq_nil_iff]
    intro f hf
    rw [h f hf]
    exact Bool.false_ne_true
  have hnone : processOne files cfg = none := by
    rw [processOne, hfil]
    rfl
  refine ⟨hnone, ?_⟩
  show (cfg :: rest).filterMap (processOne files) = rest.filterMap (processOne files)
  rw [List.filterMap_cons, hnone]

theorem zero_match_config_skipped_witness :
    processOne [("B_FE.csv".data, ([] : List EnergyRow))]
      ⟨"Iron".data, ⟨["104".data], [], []⟩⟩ = none ∧
    analyze_and_combine_csvs [("B_FE.csv".data, ([] : List EnergyRow))]
        [⟨"Iron".data, ⟨["104".data], [], []⟩⟩]
      = analyze_and_combine_csvs [("B_FE.csv".data, ([] : List EnergyRow))] [] :=
  zero_match_config_skipped [("B_FE.csv".data, ([] : List EnergyRow))]
    ⟨"Iron".data, ⟨["104".data], [], []⟩⟩ [] (by decide)

lemma collectGroupAux_fail (g : List (Str × Str)) (c : List (Str × List Str))
    (l m : List Str) :
    ∀ (names : List Str) (acc : List (Str × ℚ × ℚ)),
      (∃ n ∈ names, assocFind n g = none ∨ findLigand l n = none) →
      collectGroupAux g c l m names acc = none := by
  intro names
  induction names with
  | nil =>
    intro acc h
    obtain ⟨n, hn, _⟩ := h
    exact absurd hn (List.not_mem_nil n)
  | cons n rest ih =>
    intro acc h
    rw [collectGroupAux]
    cases hfind : assocFind n g with
    | none => rfl
    | some path =>
      cases hlig : findLigand l n with
      | none => rfl
      | some L =>
        apply ih
        obtain ⟨n', hn', hfail⟩ := h
        rcases List.mem_cons.mp hn' with he | hm
        · subst he
          rcases hfail with hf | hf
          · rw [hfind] at hf
            exact absurd hf (by simp)
          · rw [hlig] at hf
            exact absurd hf (by simp)
        · exact ⟨n', hm, hfail⟩

/-- C8: a bin referencing a configuration name absent from the
name-to-path mapping, or one whose prefix before the first hyphen matches
no ligand, contributes zero bars: its placeholder is `None`, the chart
data equals that of the remaining bins alone; and when every bin fails
this way the renderer aborts and produces no chart. -/
theorem failing_bin_dropped (generated : List (Str × Str))
    (contents : List (Str × List Str)) (ligands metrics : List Str)
    (b : PlotBin) (rest bins : List PlotBin)
    (hfail : ∃ n ∈ b.CONFIG_NAMES,
      assocFind n generated = none ∨ findLigand ligands n = none) :
    collectBin generated contents ligands metrics b = none ∧
    generate_bar_chart_data generated contents ligands metrics (b :: rest)
      = generate_bar_chart_data generated contents ligands metrics rest ∧
    ((∀ b' ∈ bins, ∃ n ∈ b'.CONFIG_NAMES,
        assocFind n generated = none ∨ findLigand ligands n = none) →
      generate_bar_chart_data generated contents ligands metrics bins = none) := by
  have h1 : collectBin generated contents ligands metrics b = none := by
    rw [collectBin, collectGroupAux_fail generated contents ligands metrics
      b.CONFIG_NAMES [] hfail]
  refine ⟨h1, ?_, ?_⟩
  · have hv : validPoints generated contents ligands metrics (b :: rest)
        = validPoints generated contents ligands metrics rest := by
      rw [validPoints, List.filterMap_cons, h1]
      rfl
    rw [generate_bar_chart_data, generate_bar_chart_data, hv]
  · intro hall
    have hnil : validPoints generated contents ligands metrics bins = [] := by
      rw [validPoints, List.filterMap_eq_nil_iff]
      intro b' hb'
      have hb : collectBin generated contents ligands metrics b' = none := by
        rw [collectBin, collectGroupAux_fail generated contents ligands metrics
          b'.CONFIG_NAMES [] (hall b' hb')]
      rw [hb]
    rw [generate_bar_chart_data, hnil]
    cases hg : generated.isEmpty <;> rfl

theorem failing_bin_dropped_witness :
    collectBin [("FE-104".data, "FE_STATS.csv".data)] [] ["FE".data] ["[EELEC]".data]
      ⟨"104".data, ["FE-104".data, "GA-104".data]⟩ = none ∧
    generate_bar_chart_data [("FE-104".data, "FE_STATS.csv".data)] [] ["FE".data]
        ["[EELEC]".data] [⟨"104".data, ["FE-104".data, "GA-104".data]⟩]
      = generate_bar_chart_data [("FE-104".data, "FE_STATS.csv".data)] []
          ["FE".data] ["[EELEC]".data] [] ∧
    ((∀ b' ∈ [(⟨"104".data, ["FE-104".data, "GA-104".data]⟩ : PlotBin)],
        ∃ n ∈ b'.CONFIG_NAMES,
          assocFind n [("FE-104".data, "FE_STATS.csv".data)] = none ∨
          findLigand ["FE".data] n = none) →
      generate_bar_chart_data [("FE-104".data, "FE_STATS.csv".data)] [] ["FE".data]
        ["[EELEC]".data] [⟨"104".data, ["FE-104".data, "GA-104".data]⟩] = none) :=
  failing_bin_dropped [("FE-104".data, "FE_STATS.csv".data)] [] ["FE".data]
    ["[EELEC]".data] ⟨"104".data, ["FE-104".data, "GA-104".data]⟩ []
    [⟨"104".data, ["FE-104".data, "GA-104".data]⟩]
    ⟨"GA-104".data, by decide, Or.inl (by decide)⟩

/-- C10: in the mapped structure, every atom of a residue whose number is
a key of the interactions dictionary carries B-factor -1 times the
dictionary value, and every atom of a residue whose number is not a key
carries B-factor 0.0. -/
theorem map_interactions_to_pdb_spec (d : List (ℤ × ℚ)) (s : PDBStructure)
    (m : PdbModel) (ch : Chain) (r : Residue) (a : Atom)
    (hm : m ∈ (map_interactions_to_pdb d s).models) (hch : ch ∈ m.chains)
    (hr : r ∈ ch.residues) (ha : a ∈ r.atoms) :
    (∀ v, assocFind r.resSeq d = some v → a.bfactor = v * (-1)) ∧
    (assocFind r.resSeq d = none → a.bfactor = 0) := by
  rw [map_interactions_to_pdb] at hm
  obtain ⟨m0, _, rfl⟩ := List.mem_map.mp hm
  obtain ⟨ch0, _, rfl⟩ := List.mem_map.mp hch
  obtain ⟨r0, _, rfl⟩ := List.mem_map.mp hr
  cases hlook : assocFind r0.resSeq d with
  | some v =>
    rw [hlook] at ha ⊢
    obtain ⟨a0, _, rfl⟩ := List.mem_map.mp ha
    exact ⟨fun v' hv' => by rw [← Option.some_inj.mp hv'], fun hn => by
      exact absurd hn (by simp)⟩
  | none =>
    rw [hlook] at ha ⊢
    obtain ⟨a0, _, rfl⟩ := List.mem_map.mp ha
    exact ⟨fun v' hv' => absurd hv' (by simp), fun _ => rfl⟩

theorem map_interactions_to_pdb_witness :
    (∀ v, assocFind (104 : ℤ) [((104 : ℤ), (7 : ℚ))] = some v →
      (⟨7 * (-1)⟩ : Atom).bfactor = v * (-1)) ∧
    (assocFind (104 : ℤ) [((104 : ℤ), (7 : ℚ))] = none →
      (⟨7 * (-1)⟩ : Atom).bfactor = 0) :=
  map_interactions_to_pdb_spec [((104 : ℤ), (7 : ℚ))]
    ⟨[⟨[⟨[⟨104, [⟨1⟩]⟩, ⟨105, [⟨2⟩]⟩]⟩]⟩]⟩
    ⟨[⟨[⟨104, [⟨7 * (-1)⟩]⟩, ⟨105, [⟨0⟩]⟩]⟩]⟩
    ⟨[⟨104, [⟨7 * (-1)⟩]⟩, ⟨105, [⟨0⟩]⟩]⟩
    ⟨104, [⟨7 * (-1)⟩]⟩
    ⟨7 * (-1)⟩
    (List.Mem.head _) (List.Mem.head _) (List.Mem.head _) (List.Mem.head _)
